import Mathlib

/-!
Verification development for the client-side caching and request-coordination
layer of the scout-crm-demo repository (src/lib/cache/: memoryCache.ts,
storageCache.ts, deduplication.ts, index.ts).

Modelling conventions:
* JavaScript strings are modelled by their character lists (`Str := List Char`).
* The JavaScript value `undefined` is modelled by `none : Option α`; a fetcher
  result of type `T` is therefore an `Option α`.  This makes the orchestrator's
  `data !== undefined` checks expressible.
* `Date.now()` is modelled by an explicit `now : Nat` argument per synchronous
  phase of an operation (milliseconds since epoch).
* `Map` objects and `localStorage` are modelled by association lists with
  replace-in-place update (matching `Map.set` / `localStorage.setItem`
  enumeration-order behaviour); real `localStorage` keys are unique, which the
  `Nodup` hypotheses of some theorems record.
* `localStorage.setItem` failure (quota exhaustion etc.) is driven by an
  explicit schedule of outcomes consumed one per `setItem` call; an empty
  schedule means every write succeeds.  Persistent-tier operations also emit a
  trace of primitive storage events (`setItem` success/failure, `removeItem`,
  `console.warn`) so that recovery-order properties can be stated.
* Asynchronous code is split at its `await` points into explicit start /
  settle / resume steps over a state type; the promise registry of the
  deduplicator is part of that state.
-/

namespace ScoutCache

/-- Characters of a JavaScript string. -/
abbrev Str := List Char

/-- Lookup in an association list; models `Map.get` / keyed storage reads. -/
def lookupKV {κ β : Type} [DecidableEq κ] (l : List (κ × β)) (k : κ) : Option β :=
  match l with
  | [] => none
  | (k', v) :: t => if k' = k then some v else lookupKV t k

/-- Replace-in-place (or append) update; models `Map.set` / `localStorage.setItem`. -/
def setKV {κ β : Type} [DecidableEq κ] (l : List (κ × β)) (k : κ) (v : β) : List (κ × β) :=
  match l with
  | [] => [(k, v)]
  | (k', v') :: t => if k' = k then (k, v) :: t else (k', v') :: setKV t k v

/-- Removal of a key; models `Map.delete` / `localStorage.removeItem`. -/
def eraseKV {κ β : Type} [DecidableEq κ] (l : List (κ × β)) (k : κ) : List (κ × β) :=
  l.filter (fun kv => kv.1 ≠ k)

@[simp] theorem lookupKV_nil {κ β : Type} [DecidableEq κ] (k : κ) :
    lookupKV ([] : List (κ × β)) k = none := rfl

@[simp] theorem lookupKV_cons {κ β : Type} [DecidableEq κ] (k' : κ) (v : β) (t : List (κ × β)) (k : κ) :
    lookupKV ((k', v) :: t) k = if k' = k then some v else lookupKV t k := rfl

theorem lookupKV_setKV_self {κ β : Type} [DecidableEq κ] (l : List (κ × β)) (k : κ) (v : β) :
    lookupKV (setKV l k v) k = some v := by
  induction l with
  | nil => simp [setKV]
  | cons hd t ih =>
    obtain ⟨k', v'⟩ := hd
    by_cases h : k' = k <;> simp [setKV, h, ih]

theorem lookupKV_setKV_ne {κ β : Type} [DecidableEq κ] (l : List (κ × β)) (k k₀ : κ) (v : β)
    (h : k₀ ≠ k) : lookupKV (setKV l k v) k₀ = lookupKV l k₀ := by
  have h' : ¬(k = k₀) := fun e => h e.symm
  induction l with
  | nil => simp [setKV, lookupKV, h']
  | cons hd t ih =>
    obtain ⟨k', v'⟩ := hd
    by_cases hk : k' = k
    · subst hk
      simp [setKV, lookupKV, h']
    · simp [setKV, hk, lookupKV, ih]

/-- Lookup after filtering out all pairs whose key satisfies `p`. -/
theorem lookupKV_filter_not {κ β : Type} [DecidableEq κ] (l : List (κ × β)) (p : κ → Bool) (k : κ) :
    lookupKV (l.filter (fun kv => !(p kv.1))) k =
      if p k then none else lookupKV l k := by
  induction l with
  | nil => simp
  | cons hd t ih =>
    obtain ⟨k', v'⟩ := hd
    by_cases hp : p k'
    · by_cases hk : k' = k
      · subst hk; simp [hp, List.filter, ih]
      · simp [List.filter, hp, lookupKV, hk, ih]
    · by_cases hk : k' = k
      · subst hk; simp [List.filter, hp, lookupKV, ih]
      · simp [List.filter, hp, lookupKV, hk, ih]

theorem eraseKV_eq_filter {κ β : Type} [DecidableEq κ] (l : List (κ × β)) (k : κ) :
    eraseKV l k = l.filter (fun kv => !(decide (kv.1 = k))) := by
  simp only [eraseKV, ne_eq, decide_not]

theorem lookupKV_eraseKV {κ β : Type} [DecidableEq κ] (l : List (κ × β)) (k k₀ : κ) :
    lookupKV (eraseKV l k) k₀ = if k₀ = k then none else lookupKV l k₀ := by
  rw [eraseKV_eq_filter, lookupKV_filter_not l (fun x => decide (x = k)) k₀]
  by_cases hk : k₀ = k <;> simp [hk]

theorem setKV_of_lookup_none {κ β : Type} [DecidableEq κ] (l : List (κ × β)) (k : κ) (v : β)
    (h : lookupKV l k = none) : setKV l k v = l ++ [(k, v)] := by
  induction l with
  | nil => simp [setKV]
  | cons hd t ih =>
    obtain ⟨k', v'⟩ := hd
    by_cases hk : k' = k
    · simp [lookupKV, hk] at h
    · simp only [lookupKV, hk, if_neg] at h
      simp [setKV, hk, ih h]

/-! ## Shared data model (types.ts) -/

/-- The entry record stored in either tier: `{ data, timestamp, ttl }`.
`data = none` models a stored JavaScript `undefined`. -/
structure CacheEntry (α : Type) where
  data : Option α
  timestamp : Nat
  ttl : Nat
deriving DecidableEq

/-- Provenance of a fetch result. -/
inductive Source where
  | memory
  | storage
  | network
deriving DecidableEq

/-- Result of a tier lookup (`CacheLookupResult<T>`); absent optional fields
are `none`, and `data = none` is indistinguishable from a missing `data`
property, exactly as in JavaScript. -/
structure CacheLookupResult (α : Type) where
  hit : Bool
  data : Option α := none
  source : Option Source := none
  timestamp : Option Nat := none
deriving DecidableEq

/-- The TTL pair supplied by callers (`CacheConfig`). -/
structure CacheConfig where
  memoryTtl : Nat
  storageTtl : Nat
deriving DecidableEq

/-! ## Memory Tier (memoryCache.ts)

The `Map<string, CacheEntry<unknown>>` backing store is the state; each method
of `MemoryCache` becomes a function from state (plus the current clock) to
result and updated state. -/

/-- State of `MemoryCache`: its private `cache` map. -/
abbrev MemState (α : Type) := List (Str × CacheEntry α)

/-- `MemoryCache.get`: miss on absent key; expired entries (`now - timestamp > ttl`)
are deleted on read; otherwise a hit carrying data and timestamp. -/
def memGet {α : Type} (st : MemState α) (now : Nat) (key : Str) :
    CacheLookupResult α × MemState α :=
  match lookupKV st key with
  | none => ({ hit := false }, st)
  | some e =>
    if now - e.timestamp > e.ttl then
      ({ hit := false }, eraseKV st key)
    else
      ({ hit := true, data := e.data, source := some .memory,
         timestamp := some e.timestamp }, st)

/-- `MemoryCache.set`: unconditionally overwrites with a fresh entry. -/
def memSet {α : Type} (st : MemState α) (now : Nat) (key : Str) (v : Option α) (ttl : Nat) :
    MemState α :=
  setKV st key ⟨v, now, ttl⟩

/-- `MemoryCache.invalidate`. -/
def memInvalidate {α : Type} (st : MemState α) (key : Str) : MemState α :=
  eraseKV st key

/-- Does the pattern contain the wildcard marker (`pattern.includes('*')`)? -/
def hasStar (p : Str) : Bool :=
  p.contains '*'

/-- Strip the trailing run of `*` characters (`pattern.replace(/\*+$/, '')`). -/
def stripStars (p : Str) : Str :=
  (p.reverse.dropWhile (· = '*')).reverse

/-- `MemoryCache.invalidatePattern`: with no wildcard, delete the exact key;
otherwise collect all keys starting with the stripped pattern, then delete them. -/
def memInvalidatePattern {α : Type} (st : MemState α) (p : Str) : MemState α :=
  if !hasStar p then
    eraseKV st p
  else
    let pre := stripStars p
    let ks := (st.map (·.1)).filter (fun k => pre.isPrefixOf k)
    ks.foldl (fun s k => eraseKV s k) st

/-- `MemoryCache.clear`. -/
def memClear {α : Type} : MemState α := []

/-- `MemoryCache.has`: delegates to `get` (sharing its expiry eviction). -/
def memHas {α : Type} (st : MemState α) (now : Nat) (key : Str) : Bool × MemState α :=
  let (r, st') := memGet st now key
  (r.hit, st')

/-- `MemoryCache.getTimestamp`: same expiry test as `get`, but no eviction. -/
def memGetTimestamp {α : Type} (st : MemState α) (now : Nat) (key : Str) : Option Nat :=
  match lookupKV st key with
  | none => none
  | some e => if now - e.timestamp > e.ttl then none else some e.timestamp

/-! ### Claim C7: memory-tier TTL boundary behaviour -/

/-- C7: for every state, key, value and TTL, after `MemoryCache.set(k, v, ttl)` a
`get(k)` with the clock advanced by `ttl + 1` ms reports a miss and evicts the
entry, while a `get(k)` with the clock advanced by `ttl - 1` ms reports a hit
whose data equals `v`. -/
theorem memory_ttl_expiry {α : Type} (st : MemState α) (k : Str) (v : Option α)
    (ttl now : Nat) :
    ((memGet (memSet st now k v ttl) (now + (ttl + 1)) k).1.hit = false
      ∧ lookupKV (memGet (memSet st now k v ttl) (now + (ttl + 1)) k).2 k = none)
    ∧ ((memGet (memSet st now k v ttl) (now + (ttl - 1)) k).1.hit = true
      ∧ (memGet (memSet st now k v ttl) (now + (ttl - 1)) k).1.data = v) := by
  have hl : lookupKV (memSet st now k v ttl) k = some ⟨v, now, ttl⟩ :=
    lookupKV_setKV_self st k ⟨v, now, ttl⟩
  refine ⟨⟨?_, ?_⟩, ?_, ?_⟩
  · simp only [memGet, hl]
    have hgt : now + (ttl + 1) - now > ttl := by omega
    simp [hgt]
  · simp only [memGet, hl]
    have hgt : now + (ttl + 1) - now > ttl := by omega
    simp [hgt, lookupKV_eraseKV]
  · have hle : ¬(ttl < ttl - 1) := by omega
    simp [memGet, hl, hle]
  · have hle : ¬(ttl < ttl - 1) := by omega
    simp [memGet, hl, hle]

/-! ## Persistent Tier (storageCache.ts)

`localStorage` is modelled by `LS`: an association list of raw values plus a
schedule of `setItem` outcomes.  A raw value either JSON-parses to an entry
record (`RawVal.entry`) or is a non-JSON string whose parse throws
(`RawVal.corrupt`).  Every operation is total: thrown storage exceptions are
translated where the source catches them, so a result type without an error
channel is itself the image of "never throws". -/

/-- The raw string stored under a `localStorage` key. -/
inductive RawVal (α : Type) where
  | entry (e : CacheEntry α)
  | corrupt (s : Str)
deriving DecidableEq

/-- Outcome of a `localStorage.setItem` call: success, a `QuotaExceededError`,
or some other thrown error. -/
inductive SetOutcome where
  | ok
  | quota
  | failOther
deriving DecidableEq

/-- Primitive storage events (used to state recovery-order properties):
`setItem` success / thrown failure, `removeItem`, and `console.warn`. -/
inductive Ev where
  | setOk (k : Str)
  | setErr (k : Str)
  | rmv (k : Str)
  | warn (m : Str)
deriving DecidableEq

/-- The `localStorage` medium: stored items plus the `setItem` outcome
schedule (an empty schedule means every write succeeds). -/
structure LS (α : Type) where
  items : List (Str × RawVal α)
  sched : List SetOutcome
deriving DecidableEq

/-- `localStorage.getItem` (returns `null` as `none`). -/
def lsGetItem {α : Type} (ls : LS α) (k : Str) : Option (RawVal α) :=
  lookupKV ls.items k

/-- Consume the next scheduled `setItem` outcome. -/
def lsNextOutcome {α : Type} (ls : LS α) : SetOutcome × LS α :=
  match ls.sched with
  | [] => (.ok, ls)
  | o :: rest => (o, { ls with sched := rest })

/-- `localStorage.setItem`: writes on success, leaves the store untouched when
the call throws. -/
def lsSetItem {α : Type} (ls : LS α) (k : Str) (v : RawVal α) :
    SetOutcome × LS α × List Ev :=
  let (o, ls1) := lsNextOutcome ls
  match o with
  | .ok => (.ok, { ls1 with items := setKV ls1.items k v }, [.setOk k])
  | .quota => (.quota, ls1, [.setErr k])
  | .failOther => (.failOther, ls1, [.setErr k])

/-- `localStorage.removeItem` (never throws). -/
def lsRemoveItem {α : Type} (ls : LS α) (k : Str) : LS α × List Ev :=
  ({ ls with items := eraseKV ls.items k }, [.rmv k])

/-- State of a `StorageCache` instance: its key prefix, the memoised
availability probe result (`storageAvailable`), and the storage medium. -/
structure SC (α : Type) where
  pfx : Str
  avail : Option Bool
  ls : LS α
deriving DecidableEq

/-- The probe key `'__storage_test__'`. -/
def testKey : Str := "__storage_test__".toList

/-- `StorageCache.isStorageAvailable`: first use attempts a trivial
write+delete and memoises the boolean result for the instance's lifetime. -/
def scAvailCheck {α : Type} (st : SC α) : Bool × SC α × List Ev :=
  match st.avail with
  | some b => (b, st, [])
  | none =>
    let (o, ls1, t1) := lsSetItem st.ls testKey (.corrupt testKey)
    match o with
    | .ok =>
      let (ls2, t2) := lsRemoveItem ls1 testKey
      (true, { st with avail := some true, ls := ls2 }, t1 ++ t2)
    | _ => (false, { st with avail := some false, ls := ls1 }, t1)

/-- `StorageCache.getFullKey`. -/
def fullKey {α : Type} (st : SC α) (key : Str) : Str :=
  st.pfx ++ key

/-- `StorageCache.isExpired`: `Date.now() > entry.timestamp + entry.ttl`. -/
def isExpiredS {α : Type} (e : CacheEntry α) (now : Nat) : Bool :=
  now > e.timestamp + e.ttl

/-- `StorageCache.get`: silent miss when storage is unavailable; a JSON-parse
failure is a miss; expired entries are deleted on read. -/
def scGet {α : Type} (st : SC α) (now : Nat) (key : Str) :
    CacheLookupResult α × SC α × List Ev :=
  let (a, st1, t1) := scAvailCheck st
  if !a then ({ hit := false }, st1, t1)
  else
    let fk := fullKey st1 key
    match lsGetItem st1.ls fk with
    | none => ({ hit := false }, st1, t1)
    | some (.corrupt _) => ({ hit := false }, st1, t1)
    | some (.entry e) =>
      if isExpiredS e now then
        let (ls2, t2) := lsRemoveItem st1.ls fk
        ({ hit := false }, { st1 with ls := ls2 }, t1 ++ t2)
      else
        ({ hit := true, data := e.data, source := some .storage,
           timestamp := some e.timestamp }, st1, t1)

/-- `StorageCache.getAllCacheKeys`: the stored keys carrying this instance's
prefix, in storage enumeration order. -/
def scKeys {α : Type} (st : SC α) : List Str :=
  (st.ls.items.map (·.1)).filter (fun k => st.pfx.isPrefixOf k)

/-- Is a raw value removed by `clearExpired` at time `now`?  (Expired entries
are removed; unparsable values are removed by the `catch` branch.) -/
def badRaw {α : Type} (now : Nat) : RawVal α → Bool
  | .entry e => isExpiredS e now
  | .corrupt _ => true

/-- The per-key loop body of `StorageCache.clearExpired`, over a pre-collected
key list. -/
def sweepKeys {α : Type} (ls : LS α) (now : Nat) : List Str → LS α × List Ev
  | [] => (ls, [])
  | k :: ks =>
    match lsGetItem ls k with
    | none => sweepKeys ls now ks
    | some rv =>
      if badRaw now rv then
        let (ls1, t1) := lsRemoveItem ls k
        let (ls2, t2) := sweepKeys ls1 now ks
        (ls2, t1 ++ t2)
      else
        sweepKeys ls now ks

/-- `StorageCache.clearExpired`: sweep all prefixed keys, deleting the expired
(and unparsable) ones. -/
def clearExpired {α : Type} (st : SC α) (now : Nat) : SC α × List Ev :=
  let (ls', tr) := sweepKeys st.ls now (scKeys st)
  ({ st with ls := ls' }, tr)

/-- Remove every key in the list (the loop body of `StorageCache.clear` and
`invalidatePattern`). -/
def removeKeys {α : Type} (ls : LS α) : List Str → LS α × List Ev
  | [] => (ls, [])
  | k :: ks =>
    let (ls1, t1) := lsRemoveItem ls k
    let (ls2, t2) := removeKeys ls1 ks
    (ls2, t1 ++ t2)

/-- `StorageCache.clear`: deletes only keys carrying this instance's prefix. -/
def scClear {α : Type} (st : SC α) : SC α × List Ev :=
  let (a, st1, t1) := scAvailCheck st
  if !a then (st1, t1)
  else
    let (ls', t2) := removeKeys st1.ls (scKeys st1)
    ({ st1 with ls := ls' }, t1 ++ t2)

/-- The message of the first quota warning. -/
def warnQuota1 : Str := "[StorageCache] Quota exceeded, clearing expired entries".toList

/-- The message of the second quota warning. -/
def warnQuota2 : Str := "[StorageCache] Still over quota, clearing all cache entries".toList

/-- The message of the final quota warning. -/
def warnQuota3 : Str := "[StorageCache] Unable to save entry after clearing cache".toList

/-- `StorageCache.handleQuotaExceeded`: warn, sweep expired entries, retry the
write once; on a second quota failure warn, clear every prefixed key, retry a
final time; a final failure only warns.  Non-quota retry errors return
silently. -/
def handleQuotaExceeded {α : Type} (st : SC α) (now : Nat) (fk : Str) (e : CacheEntry α) :
    SC α × List Ev :=
  let (st1, t1) := clearExpired st now
  let (o2, ls2, t2) := lsSetItem st1.ls fk (.entry e)
  let st2 : SC α := { st1 with ls := ls2 }
  match o2 with
  | .ok => (st2, [.warn warnQuota1] ++ t1 ++ t2)
  | .failOther => (st2, [.warn warnQuota1] ++ t1 ++ t2)
  | .quota =>
    let (st3, t3) := scClear st2
    let (o4, ls4, t4) := lsSetItem st3.ls fk (.entry e)
    let st4 : SC α := { st3 with ls := ls4 }
    match o4 with
    | .ok => (st4, [.warn warnQuota1] ++ t1 ++ t2 ++ [.warn warnQuota2] ++ t3 ++ t4)
    | _ =>
      (st4, [.warn warnQuota1] ++ t1 ++ t2 ++ [.warn warnQuota2] ++ t3 ++ t4
        ++ [.warn warnQuota3])

/-- `StorageCache.set`: silent no-op when storage is unavailable; writes the
serialized entry; a quota failure enters the recovery cascade; any other
thrown error is swallowed. -/
def scSet {α : Type} (st : SC α) (now : Nat) (key : Str) (v : Option α) (ttl : Nat) :
    SC α × List Ev :=
  let (a, st1, t1) := scAvailCheck st
  if !a then (st1, t1)
  else
    let fk := fullKey st1 key
    let e : CacheEntry α := ⟨v, now, ttl⟩
    let (o, ls2, t2) := lsSetItem st1.ls fk (.entry e)
    let st2 : SC α := { st1 with ls := ls2 }
    match o with
    | .ok => (st2, t1 ++ t2)
    | .quota =>
      let (st3, t3) := handleQuotaExceeded st2 now fk e
      (st3, t1 ++ t2 ++ t3)
    | .failOther => (st2, t1 ++ t2)

/-- `StorageCache.invalidate`. -/
def scInvalidate {α : Type} (st : SC α) (key : Str) : SC α × List Ev :=
  let (a, st1, t1) := scAvailCheck st
  if !a then (st1, t1)
  else
    let (ls', t2) := lsRemoveItem st1.ls (fullKey st1 key)
    ({ st1 with ls := ls' }, t1 ++ t2)

/-- Semantics of the regular expression built by `StorageCache.patternToRegex`:
every character except `*` is escaped to a literal and each `*` becomes `.*`,
anchored at both ends.  `globMatch p s` holds iff that regex matches `s`. -/
def globMatch : Str → Str → Bool
  | [], s => s.isEmpty
  | c :: p, s =>
    if c = '*' then
      globMatch p s ||
        (match s with
         | [] => false
         | _ :: s' => globMatch (c :: p) s')
    else
      match s with
      | [] => false
      | x :: s' => c = x && globMatch p s'
termination_by p s => (p.length, s.length)

/-- `StorageCache.invalidatePattern`: test every stored prefixed key against
the regex for the prefixed pattern and remove the matches. -/
def scInvalidatePattern {α : Type} (st : SC α) (p : Str) : SC α × List Ev :=
  let (a, st1, t1) := scAvailCheck st
  if !a then (st1, t1)
  else
    let fullP := fullKey st1 p
    let ks := (scKeys st1).filter (fun k => globMatch fullP k)
    let (ls', t2) := removeKeys st1.ls ks
    ({ st1 with ls := ls' }, t1 ++ t2)

/-- `StorageCache.has`: delegates to `get`. -/
def scHas {α : Type} (st : SC α) (now : Nat) (key : Str) : Bool × SC α × List Ev :=
  let (r, st', tr) := scGet st now key
  (r.hit, st', tr)

/-- `StorageCache.getTimestamp`: same miss conditions as `get` but without the
delete-on-expiry, returning only the timestamp. -/
def scGetTimestamp {α : Type} (st : SC α) (now : Nat) (key : Str) :
    Option Nat × SC α × List Ev :=
  let (a, st1, t1) := scAvailCheck st
  if !a then (none, st1, t1)
  else
    match lsGetItem st1.ls (fullKey st1 key) with
    | none => (none, st1, t1)
    | some (.corrupt _) => (none, st1, t1)
    | some (.entry e) =>
      if isExpiredS e now then (none, st1, t1) else (some e.timestamp, st1, t1)

/-! ## Request Deduplicator (deduplication.ts)

Promise-based code is modelled as a step system.  `dedupeCall` is the
synchronous body of `RequestDeduplicator.dedupe` for one caller: it either
joins the pending promise for the key or invokes the fetcher, allocating a
fresh fetch identifier and registering it.  `settleFetch` is the settlement of
a fetch's promise: the `.then`/`.catch` cleanup deletes the registry entry for
the key captured in the closure, and the outcome becomes visible to every
attached caller. -/

/-- Settlement outcome of a promise. -/
inductive Outcome (α ε : Type) where
  | ok (v : α)
  | err (e : ε)
deriving DecidableEq

/-- State of a `RequestDeduplicator` together with the event-loop bookkeeping
needed to observe it: `pending` is the `Map<string, Promise>` registry;
`fKey` records the key captured by each fetch's cleanup closure; `invoked`
lists the fetch identifiers in the order the fetcher was invoked; `attached`
maps each caller to the fetch whose promise it awaits; `settled` maps settled
fetches to their outcome. -/
structure DState (ω : Type) where
  pending : List (Str × Nat)
  fKey : List (Nat × Str)
  nextId : Nat
  invoked : List Nat
  attached : List (Nat × Nat)
  settled : List (Nat × ω)
deriving DecidableEq

/-- `RequestDeduplicator.dedupe` for caller `c`: join the pending request if
one exists, otherwise invoke the fetcher and register the promise.  The
returned flag is `true` iff the fetcher was invoked. -/
def dedupeCall {ω : Type} (d : DState ω) (c : Nat) (key : Str) : DState ω × Bool :=
  match lookupKV d.pending key with
  | some f => ({ d with attached := setKV d.attached c f }, false)
  | none =>
    let f := d.nextId
    ({ pending := setKV d.pending key f,
       fKey := setKV d.fKey f key,
       nextId := f + 1,
       invoked := d.invoked ++ [f],
       attached := setKV d.attached c f,
       settled := d.settled }, true)

/-- Settlement of fetch `f` with outcome `o`: the cleanup deletes the registry
entry for the captured key (before resolving or rejecting the callers), and
the outcome is recorded. -/
def settleFetch {ω : Type} (d : DState ω) (f : Nat) (o : ω) : DState ω :=
  match lookupKV d.fKey f with
  | some k => { d with pending := eraseKV d.pending k, settled := setKV d.settled f o }
  | none => d

/-- `RequestDeduplicator.isPending`. -/
def dedupIsPending {ω : Type} (d : DState ω) (key : Str) : Bool :=
  (lookupKV d.pending key).isSome

/-- `RequestDeduplicator.getPendingCount`. -/
def dedupPendingCount {ω : Type} (d : DState ω) : Nat :=
  d.pending.length

/-- `RequestDeduplicator.clear`: drops the registry without cancelling work. -/
def dedupClear {ω : Type} (d : DState ω) : DState ω :=
  { d with pending := [] }

/-- The outcome observed by caller `c`: the settled outcome of the fetch whose
promise it awaits, once that fetch has settled. -/
def callerOutcome {ω : Type} (d : DState ω) (c : Nat) : Option ω :=
  (lookupKV d.attached c).bind (fun f => lookupKV d.settled f)

/-- A sequence of `dedupe` calls for the same key by the listed callers,
with no settlement in between. -/
def dedupeCalls {ω : Type} (d : DState ω) (key : Str) (cs : List Nat) : DState ω :=
  cs.foldl (fun s c => (dedupeCall s c key).1) d

/-! ## Cache Orchestrator (index.ts)

`cachedFetch` is split at its single `await` into `cachedFetchStart` (the
synchronous part up to and including the `deduplicator.dedupe` call) and
`cachedFetchResume` (the continuation after the awaited promise settles).
The module-level singletons become one explicit state record. -/

/-- Outcome type of a fetcher's promise: the resolved value may itself be the
JavaScript `undefined`. -/
abbrev FetchOutcome (α ε : Type) := Outcome (Option α) ε

/-- The module state of `index.ts`: the two tier singletons, the deduplicator
singleton, and the `lastFetchTimestamps` map. -/
structure GState (α ε : Type) where
  mem : MemState α
  stor : SC α
  dedup : DState (FetchOutcome α ε)
  lastFetch : List (Str × Nat)
deriving DecidableEq

/-- Result of the synchronous phase of `cachedFetch`. -/
inductive StartRes (α : Type) where
  | done (data : Option α) (src : Source) (ts : Nat)
  | awaiting
deriving DecidableEq

/-- The synchronous phase of `cachedFetch` for caller `c`: unless
`forceRefresh` is set, check the memory tier (hit requires `hit` and
`data !== undefined`), then the storage tier (promoting a hit into memory with
`memoryTtl`); otherwise or on a double miss, call the deduplicator and
suspend at the `await`. -/
def cachedFetchStart {α ε : Type} (g : GState α ε) (c : Nat) (now : Nat) (key : Str)
    (cfg : CacheConfig) (forceRefresh : Bool) : GState α ε × StartRes α :=
  if forceRefresh then
    let (d', _) := dedupeCall g.dedup c key
    ({ g with dedup := d' }, .awaiting)
  else
    let (mr, mem1) := memGet g.mem now key
    if mr.hit && mr.data.isSome then
      ({ g with mem := mem1 }, .done mr.data .memory (mr.timestamp.getD 0))
    else
      let (sr, stor1, _) := scGet g.stor now key
      if sr.hit && sr.data.isSome then
        let mem2 := memSet mem1 now key sr.data cfg.memoryTtl
        ({ g with mem := mem2, stor := stor1 }, .done sr.data .storage (sr.timestamp.getD 0))
      else
        let (d', _) := dedupeCall g.dedup c key
        ({ g with mem := mem1, stor := stor1, dedup := d' }, .awaiting)

/-- Result of the resumed phase of `cachedFetch`: a returned value with
provenance, or the propagated fetcher error. -/
inductive ResumeRes (α ε : Type) where
  | value (data : Option α) (src : Source) (ts : Nat)
  | raised (e : ε)
deriving DecidableEq

/-- The continuation of `cachedFetch` after the awaited dedupe promise settles
at time `now`: a rejection propagates unchanged with no further effect; a
resolution is written to both tiers and the last-fetch timestamp map, and
returned with provenance `network`. -/
def cachedFetchResume {α ε : Type} (g : GState α ε) (now : Nat) (key : Str)
    (cfg : CacheConfig) (o : FetchOutcome α ε) : GState α ε × ResumeRes α ε :=
  match o with
  | .err e => (g, .raised e)
  | .ok v =>
    let mem1 := memSet g.mem now key v cfg.memoryTtl
    let (stor1, _) := scSet g.stor now key v cfg.storageTtl
    let lf1 := setKV g.lastFetch key now
    ({ g with mem := mem1, stor := stor1, lastFetch := lf1 }, .value v .network now)

/-- `getLastFetchTimestamp`. -/
def getLastFetchTimestampG {α ε : Type} (g : GState α ε) (key : Str) : Option Nat :=
  lookupKV g.lastFetch key

/-- `invalidateCache`: fan out to both tiers and delete the key's timestamp. -/
def invalidateCacheG {α ε : Type} (g : GState α ε) (key : Str) : GState α ε :=
  { g with
    mem := memInvalidate g.mem key,
    stor := (scInvalidate g.stor key).1,
    lastFetch := eraseKV g.lastFetch key }

/-- `invalidateCachePattern`: fan out to both tiers; the timestamp map is
cleared entirely for the pattern `"*"`, and otherwise purged of every key
starting with the pattern stripped of its trailing wildcards. -/
def invalidateCachePatternG {α ε : Type} (g : GState α ε) (p : Str) : GState α ε :=
  let mem1 := memInvalidatePattern g.mem p
  let stor1 := (scInvalidatePattern g.stor p).1
  let lf1 :=
    if p = ['*'] then []
    else
      let pre := stripStars p
      g.lastFetch.filter (fun kv => !(pre.isPrefixOf kv.1))
  { g with mem := mem1, stor := stor1, lastFetch := lf1 }

/-- `clearAllCaches`: clear both tiers, the dedup registry, and all
timestamps. -/
def clearAllCachesG {α ε : Type} (g : GState α ε) : GState α ε :=
  { g with
    mem := memClear,
    stor := (scClear g.stor).1,
    dedup := dedupClear g.dedup,
    lastFetch := [] }

/-! ## Deduplicator lemmas and claim C2 -/

@[simp] theorem dedupeCalls_nil {ω : Type} (d : DState ω) (key : Str) :
    dedupeCalls d key [] = d := rfl

theorem dedupeCalls_cons {ω : Type} (d : DState ω) (key : Str) (c : Nat) (cs : List Nat) :
    dedupeCalls d key (c :: cs) = dedupeCalls (dedupeCall d c key).1 key cs := rfl

/-- While a fetch for `key` is pending, further `dedupe` calls only attach the
new callers to the pending promise: no registry change, no new invocation. -/
theorem dedupeCalls_join {ω : Type} (key : Str) (f : Nat) (cs : List Nat) :
    ∀ d : DState ω, lookupKV d.pending key = some f →
      (dedupeCalls d key cs).pending = d.pending
      ∧ (dedupeCalls d key cs).fKey = d.fKey
      ∧ (dedupeCalls d key cs).nextId = d.nextId
      ∧ (dedupeCalls d key cs).invoked = d.invoked
      ∧ (dedupeCalls d key cs).settled = d.settled
      ∧ ∀ x, lookupKV (dedupeCalls d key cs).attached x =
          if x ∈ cs then some f else lookupKV d.attached x := by
  induction cs with
  | nil => intro d _; simp
  | cons c cs ih =>
    intro d h
    have step : (dedupeCall d c key).1 = { d with attached := setKV d.attached c f } := by
      simp [dedupeCall, h]
    have h' : lookupKV ({ d with attached := setKV d.attached c f } : DState ω).pending key
        = some f := h
    obtain ⟨h1, h2, h3, h4, h5, h6⟩ := ih _ h'
    rw [dedupeCalls_cons, step]
    refine ⟨h1, h2, h3, h4, h5, fun x => ?_⟩
    rw [h6 x]
    by_cases hx : x ∈ cs
    · simp [hx]
    · by_cases hxc : x = c
      · subst hxc
        simp [hx, lookupKV_setKV_self]
      · simp [hx, hxc, lookupKV_setKV_ne _ _ _ _ hxc]

/-- C2: with no pending request for the key, a first `dedupe` call and any
number of further calls for the same key invoke the fetcher exactly once; all
callers observe the identical settled outcome; settlement removes the
pending-registry entry; and a subsequent call invokes the fetcher afresh. -/
theorem dedup_single_flight {ω : Type} (d : DState ω) (key : Str) (c : Nat)
    (cs : List Nat) (o : ω) (c2 : Nat) (hp : lookupKV d.pending key = none) :
    (dedupeCalls d key (c :: cs)).invoked = d.invoked ++ [d.nextId]
    ∧ (∀ x ∈ c :: cs,
        callerOutcome (settleFetch (dedupeCalls d key (c :: cs)) d.nextId o) x = some o)
    ∧ lookupKV (settleFetch (dedupeCalls d key (c :: cs)) d.nextId o).pending key = none
    ∧ (dedupeCall (settleFetch (dedupeCalls d key (c :: cs)) d.nextId o) c2 key).2 = true
    ∧ (dedupeCall (settleFetch (dedupeCalls d key (c :: cs)) d.nextId o) c2 key).1.invoked
        = d.invoked ++ [d.nextId, d.nextId + 1] := by
  set f0 := d.nextId with hf0
  have step : (dedupeCall d c key).1 =
      ({ pending := setKV d.pending key f0, fKey := setKV d.fKey f0 key,
         nextId := f0 + 1, invoked := d.invoked ++ [f0],
         attached := setKV d.attached c f0, settled := d.settled } : DState ω) := by
    simp [dedupeCall, hp]
  set dstart : DState ω :=
    { pending := setKV d.pending key f0, fKey := setKV d.fKey f0 key,
      nextId := f0 + 1, invoked := d.invoked ++ [f0],
      attached := setKV d.attached c f0, settled := d.settled } with hdstart
  have hps : lookupKV dstart.pending key = some f0 := lookupKV_setKV_self _ _ _
  obtain ⟨j1, j2, j3, j4, j5, j6⟩ := dedupeCalls_join key f0 cs dstart hps
  have hd1 : dedupeCalls d key (c :: cs) = dedupeCalls dstart key cs := by
    rw [dedupeCalls_cons, step]
  set d1 := dedupeCalls dstart key cs with hd1def
  have hfk : lookupKV d1.fKey f0 = some key := by
    rw [j2]; exact lookupKV_setKV_self _ _ _
  have hsettle : settleFetch d1 f0 o =
      { d1 with pending := eraseKV d1.pending key, settled := setKV d1.settled f0 o } := by
    simp [settleFetch, hfk]
  constructor
  · rw [hd1, j4]
  rw [hd1, hsettle]
  have hatt : ∀ x ∈ c :: cs, lookupKV d1.attached x = some f0 := by
    intro x hx
    rw [j6 x]
    rcases List.mem_cons.mp hx with hxc | hxcs
    · by_cases hcs : x ∈ cs
      · simp [hcs]
      · subst hxc
        simp [hcs, lookupKV_setKV_self]
    · simp [hxcs]
  refine ⟨?_, ?_, ?_, ?_⟩
  · intro x hx
    simp only [callerOutcome]
    rw [hatt x hx]
    simp [lookupKV_setKV_self]
  · simp [lookupKV_eraseKV]
  · have : lookupKV (eraseKV d1.pending key) key = none := by simp [lookupKV_eraseKV]
    simp [dedupeCall, this]
  · have : lookupKV (eraseKV d1.pending key) key = none := by simp [lookupKV_eraseKV]
    simp [dedupeCall, this, j4, j3]

/-- A fresh deduplicator (the state right after `new RequestDeduplicator()`). -/
def dInit : DState (Outcome Nat Nat) :=
  { pending := [], fKey := [], nextId := 0, invoked := [], attached := [], settled := [] }

/-- Witness for C2 at a concrete state: two joining callers plus the starter
all see the settled value, and a post-settlement call re-invokes. -/
theorem dedup_single_flight_witness :
    (dedupeCalls dInit ("contacts".toList) [0, 1, 2]).invoked = [0]
    ∧ (∀ x ∈ [0, 1, 2],
        callerOutcome (settleFetch (dedupeCalls dInit ("contacts".toList) [0, 1, 2]) 0
          (Outcome.ok 42 : Outcome Nat Nat)) x = some (.ok 42))
    ∧ lookupKV (settleFetch (dedupeCalls dInit ("contacts".toList) [0, 1, 2]) 0
        (Outcome.ok 42 : Outcome Nat Nat)).pending ("contacts".toList) = none
    ∧ (dedupeCall (settleFetch (dedupeCalls dInit ("contacts".toList) [0, 1, 2]) 0
        (Outcome.ok 42 : Outcome Nat Nat)) 7 ("contacts".toList)).2 = true
    ∧ (dedupeCall (settleFetch (dedupeCalls dInit ("contacts".toList) [0, 1, 2]) 0
        (Outcome.ok 42 : Outcome Nat Nat)) 7 ("contacts".toList)).1.invoked = [0, 1] := by
  have h := dedup_single_flight dInit ("contacts".toList) 0 [1, 2]
    (Outcome.ok 42 : Outcome Nat Nat) 7 (by rfl)
  simpa [dInit] using h

/-! ## Storage-tier lemmas and claims C6, C9 -/

/-- Removing a list of keys filters out exactly the items with those keys and
emits one `removeItem` event per listed key, in order. -/
theorem removeKeys_spec {α : Type} (ks : List Str) :
    ∀ ls : LS α,
      (removeKeys ls ks).1 =
        { ls with items := ls.items.filter (fun kv => !(decide (kv.1 ∈ ks))) }
      ∧ (removeKeys ls ks).2 = ks.map Ev.rmv := by
  induction ks with
  | nil => intro ls; simp [removeKeys]
  | cons k ks ih =>
    intro ls
    obtain ⟨ih1, ih2⟩ := ih ({ ls with items := eraseKV ls.items k } : LS α)
    have hpt : ∀ x : Str × RawVal α,
        (!(decide (x.1 ∈ ks)) && !(decide (x.1 = k))) = !(decide (x.1 ∈ k :: ks)) := by
      intro x
      by_cases h1 : x.1 = k <;> by_cases h2 : x.1 ∈ ks <;> simp [h1, h2]
    constructor
    · simp only [removeKeys, lsRemoveItem]
      rw [ih1]
      simp only [eraseKV_eq_filter, List.filter_filter]
      congr 1
      exact List.filter_congr (fun x _ => hpt x)
    · simp only [removeKeys, lsRemoveItem]
      rw [ih2]
      simp

/-- Characterisation of `StorageCache.clear()` on an available tier: exactly
the prefixed items are removed, one `removeItem` event per prefixed key. -/
theorem scClear_spec {α : Type} (st : SC α) (h : st.avail = some true) :
    (scClear st).1 = { st with ls := { st.ls with
        items := st.ls.items.filter (fun kv => !(st.pfx.isPrefixOf kv.1)) } }
    ∧ (scClear st).2 = (scKeys st).map Ev.rmv := by
  obtain ⟨r1, r2⟩ := removeKeys_spec (scKeys st) st.ls
  have havail : scAvailCheck st = (true, st, []) := by simp [scAvailCheck, h]
  have key : ∀ kv ∈ st.ls.items,
      (!(decide (kv.1 ∈ scKeys st))) = (!(st.pfx.isPrefixOf kv.1)) := by
    intro kv hkv
    have hm : kv.1 ∈ st.ls.items.map (·.1) := List.mem_map_of_mem _ hkv
    by_cases hp : st.pfx.isPrefixOf kv.1
    · have : kv.1 ∈ scKeys st := List.mem_filter.mpr ⟨hm, hp⟩
      simp [this, hp]
    · have : kv.1 ∉ scKeys st := fun hc => hp ((List.mem_filter.mp hc).2)
      simp [this, hp]
  constructor
  · simp only [scClear, havail]
    rw [r1]
    simp only [Bool.not_true, Bool.false_eq_true, if_false]
    congr 2
    exact List.filter_congr key
  · simp only [scClear, havail]
    rw [r2]
    simp

/-- C9: `StorageCache.clear()` removes exactly the stored keys carrying this
instance's prefix (one `removeItem` per prefixed key); every unprefixed or
differently-prefixed entry survives with its value unchanged. -/
theorem storage_clear_frame {α : Type} (st : SC α) (h : st.avail = some true) :
    (scClear st).1 = { st with ls := { st.ls with
        items := st.ls.items.filter (fun kv => !(st.pfx.isPrefixOf kv.1)) } }
    ∧ (scClear st).2 = (scKeys st).map Ev.rmv :=
  scClear_spec st h

/-- A persistent-tier state with one entry under its own prefix and one
foreign entry belonging to another storage consumer. -/
def stFrameEx : SC Nat :=
  { pfx := "crm_cache_".toList, avail := some true,
    ls := { items := [("crm_cache_contacts".toList, .entry ⟨some 1, 0, 10⟩),
                      ("other_app_key".toList, .corrupt "zz".toList)],
            sched := [] } }

/-- Witness for C9: clearing the example state removes only the prefixed key. -/
theorem storage_clear_frame_witness :
    (scClear stFrameEx).1 = { stFrameEx with ls := { stFrameEx.ls with
        items := stFrameEx.ls.items.filter (fun kv => !(stFrameEx.pfx.isPrefixOf kv.1)) } }
    ∧ (scClear stFrameEx).2 = (scKeys stFrameEx).map Ev.rmv :=
  storage_clear_frame stFrameEx rfl

/-- C6: a failed first-use probe records unavailability, and once the tier is
marked unavailable every operation (`get`, `set`, `invalidate`,
`invalidatePattern`, `clear`, `has`, `getTimestamp`) is a silent no-op or miss
that leaves the state untouched and emits no storage events. -/
theorem storage_unavailable_degrades {α : Type} (st : SC α) (now : Nat) (key p : Str)
    (v : Option α) (ttl : Nat) :
    (st.avail = none → ∀ o rest, st.ls.sched = o :: rest → o ≠ .ok →
      scAvailCheck st =
        (false, { st with avail := some false, ls := { st.ls with sched := rest } },
          [.setErr testKey]))
    ∧ (st.avail = some false →
      scGet st now key = ({ hit := false }, st, [])
      ∧ scSet st now key v ttl = (st, [])
      ∧ scInvalidate st key = (st, [])
      ∧ scInvalidatePattern st p = (st, [])
      ∧ scClear st = (st, [])
      ∧ scHas st now key = (false, st, [])
      ∧ scGetTimestamp st now key = (none, st, [])) := by
  constructor
  · intro h o rest hs ho
    cases o with
    | ok => exact absurd rfl ho
    | quota => simp [scAvailCheck, h, lsSetItem, lsNextOutcome, hs]
    | failOther => simp [scAvailCheck, h, lsSetItem, lsNextOutcome, hs]
  · intro h
    have havail : scAvailCheck st = (false, st, []) := by simp [scAvailCheck, h]
    refine ⟨?_, ?_, ?_, ?_, ?_, ?_, ?_⟩ <;>
      simp [scGet, scSet, scInvalidate, scInvalidatePattern, scClear, scHas,
        scGetTimestamp, havail]

/-- A fresh persistent-tier state whose storage medium throws on every write. -/
def stDeadEx : SC Nat :=
  { pfx := "crm_cache_".toList, avail := some false,
    ls := { items := [], sched := [.failOther] } }

/-- A never-probed persistent-tier state whose first write will throw. -/
def stProbeEx : SC Nat :=
  { pfx := "crm_cache_".toList, avail := none,
    ls := { items := [], sched := [.failOther] } }

/-- Witness for C6: the failing probe settles availability to `false`, and all
operations on an unavailable tier are silent no-ops. -/
theorem storage_unavailable_degrades_witness :
    (scAvailCheck stProbeEx =
      (false, { stProbeEx with avail := some false, ls := { stProbeEx.ls with sched := [] } },
        [.setErr testKey]))
    ∧ (scGet stDeadEx 5 ("contacts".toList) = ({ hit := false }, stDeadEx, [])
      ∧ scSet stDeadEx 5 ("contacts".toList) (some 3) 100 = (stDeadEx, [])
      ∧ scInvalidate stDeadEx ("contacts".toList) = (stDeadEx, [])
      ∧ scInvalidatePattern stDeadEx ("contact:*".toList) = (stDeadEx, [])
      ∧ scClear stDeadEx = (stDeadEx, [])
      ∧ scHas stDeadEx 5 ("contacts".toList) = (false, stDeadEx, [])
      ∧ scGetTimestamp stDeadEx 5 ("contacts".toList) = (none, stDeadEx, [])) := by
  constructor
  · exact (storage_unavailable_degrades stProbeEx 5 ("contacts".toList)
      ("contact:*".toList) (some 3) 100).1 rfl .failOther [] rfl (by decide)
  · exact (storage_unavailable_degrades stDeadEx 5 ("contacts".toList)
      ("contact:*".toList) (some 3) 100).2 rfl

/-! ## Orchestrator claims C1 and C10 -/

/-- The deduplicator state after caller `c` starts a fetch for `key` and that
fetch settles with outcome `o`. -/
def startThenSettle {α ε : Type} (g : GState α ε) (c : Nat) (key : Str)
    (o : FetchOutcome α ε) : DState (FetchOutcome α ε) :=
  settleFetch (dedupeCall g.dedup c key).1 g.dedup.nextId o

/-- C1: with `forceRefresh` false, `cachedFetch` follows the tiered pipeline.
A non-expired memory hit returns its data with source `memory` and changes
nothing; on a memory miss, a non-expired storage hit is promoted into the
memory tier with `memoryTtl` and returned with source `storage`, without
invoking the fetcher; only when both tiers miss is the fetcher invoked via the
deduplicator, after which the settled value is written to the memory tier with
`memoryTtl` and the storage tier with `storageTtl`, the last-fetch timestamp
is recorded, and the result is returned with source `network`. -/
theorem tiered_pipeline {α ε : Type} (g : GState α ε) (c : Nat) (now : Nat) (key : Str)
    (cfg : CacheConfig) (em es : CacheEntry α) (v : α) :
    (lookupKV g.mem key = some em → ¬(now - em.timestamp > em.ttl) → em.data = some v →
      cachedFetchStart g c now key cfg false = (g, .done (some v) .memory em.timestamp))
    ∧ (lookupKV g.mem key = none → g.stor.avail = some true →
       lsGetItem g.stor.ls (g.stor.pfx ++ key) = some (.entry es) →
       ¬(now > es.timestamp + es.ttl) → es.data = some v →
      cachedFetchStart g c now key cfg false =
        ({ g with mem := setKV g.mem key ⟨some v, now, cfg.memoryTtl⟩ },
          .done (some v) .storage es.timestamp))
    ∧ (lookupKV g.mem key = none → g.stor.avail = some true →
       lsGetItem g.stor.ls (g.stor.pfx ++ key) = none →
       lookupKV g.dedup.pending key = none → g.stor.ls.sched = [] →
      cachedFetchStart g c now key cfg false =
        ({ g with dedup := (dedupeCall g.dedup c key).1 }, .awaiting)
      ∧ (dedupeCall g.dedup c key).2 = true
      ∧ (dedupeCall g.dedup c key).1.invoked = g.dedup.invoked ++ [g.dedup.nextId]
      ∧ ∀ (w : α) (now2 : Nat),
          cachedFetchResume { g with dedup := startThenSettle g c key (.ok (some w)) }
              now2 key cfg (.ok (some w)) =
          ({ g with
              mem := setKV g.mem key ⟨some w, now2, cfg.memoryTtl⟩,
              stor := { g.stor with ls := { g.stor.ls with
                items := setKV g.stor.ls.items (g.stor.pfx ++ key)
                  (.entry ⟨some w, now2, cfg.storageTtl⟩) } },
              dedup := startThenSettle g c key (.ok (some w)),
              lastFetch := setKV g.lastFetch key now2 },
            .value (some w) .network now2)) := by
  refine ⟨?_, ?_, ?_⟩
  · intro hm hfresh hd
    simp [cachedFetchStart, memGet, hm, hfresh, hd]
  · intro hm hav hs hfresh hd
    simp [cachedFetchStart, memGet, hm, scGet, scAvailCheck, hav, fullKey,
      hs, isExpiredS, hfresh, hd, memSet]
  · intro hm hav hs hp hsched
    refine ⟨?_, ?_, ?_, ?_⟩
    · simp [cachedFetchStart, memGet, hm, scGet, scAvailCheck, hav, fullKey, hs]
    · simp [dedupeCall, hp]
    · simp [dedupeCall, hp]
    · intro w now2
      simp [cachedFetchResume, memSet, scSet, scAvailCheck, hav, fullKey,
        lsSetItem, lsNextOutcome, hsched]

/-- A persistent-tier state with available storage and no stored items. -/
def scEmptyEx : SC Nat :=
  { pfx := "crm_cache_".toList, avail := some true, ls := { items := [], sched := [] } }

/-- A fresh deduplicator state over fetch outcomes. -/
def dEmptyEx : DState (FetchOutcome Nat Nat) :=
  { pending := [], fKey := [], nextId := 0, invoked := [], attached := [], settled := [] }

/-- Orchestrator state with a valid memory entry for `"k"`. -/
def gMemHitEx : GState Nat Nat :=
  { mem := [("k".toList, ⟨some 7, 100, 50⟩)], stor := scEmptyEx, dedup := dEmptyEx,
    lastFetch := [] }

/-- Orchestrator state with only a storage entry for `"k"`. -/
def gStorHitEx : GState Nat Nat :=
  { mem := [],
    stor := { scEmptyEx with
      ls := { items := [("crm_cache_k".toList, RawVal.entry ⟨some 8, 100, 50⟩)], sched := [] } },
    dedup := dEmptyEx, lastFetch := [] }

/-- Orchestrator state with both tiers empty. -/
def gEmptyEx : GState Nat Nat :=
  { mem := [], stor := scEmptyEx, dedup := dEmptyEx, lastFetch := [] }

/-- Witness for C1: each pipeline branch at a concrete state. -/
theorem tiered_pipeline_witness :
    (cachedFetchStart gMemHitEx 0 120 ("k".toList) ⟨60, 300⟩ false =
      (gMemHitEx, .done (some 7) .memory 100))
    ∧ (cachedFetchStart gStorHitEx 0 120 ("k".toList) ⟨60, 300⟩ false =
      ({ gStorHitEx with mem := setKV gStorHitEx.mem ("k".toList) ⟨some 8, 120, 60⟩ },
        .done (some 8) .storage 100))
    ∧ (cachedFetchStart gEmptyEx 0 120 ("k".toList) ⟨60, 300⟩ false =
      ({ gEmptyEx with dedup := (dedupeCall gEmptyEx.dedup 0 ("k".toList)).1 }, .awaiting)) := by
  refine ⟨?_, ?_, ?_⟩
  · exact (tiered_pipeline gMemHitEx 0 120 ("k".toList) ⟨60, 300⟩ ⟨some 7, 100, 50⟩
      ⟨some 8, 100, 50⟩ 7).1 rfl (by decide) rfl
  · exact (tiered_pipeline gStorHitEx 0 120 ("k".toList) ⟨60, 300⟩ ⟨some 7, 100, 50⟩
      ⟨some 8, 100, 50⟩ 8).2.1 rfl rfl (by decide) (by decide) rfl
  · exact ((tiered_pipeline gEmptyEx 0 120 ("k".toList) ⟨60, 300⟩ ⟨some 7, 100, 50⟩
      ⟨some 8, 100, 50⟩ 8).2.2 rfl rfl (by decide) rfl rfl).1

/-- C10: a cached entry whose data is the JavaScript `undefined` can never be
served: even with non-expired entries for the key in both tiers, the hit
checks (`data !== undefined`) fail, no promotion happens, and `cachedFetch`
proceeds to invoke the fetcher again through the deduplicator. -/
theorem undefined_never_served {α ε : Type} (g : GState α ε) (c : Nat) (now : Nat)
    (key : Str) (cfg : CacheConfig) (em es : CacheEntry α)
    (hm : lookupKV g.mem key = some em) (hmf : ¬(now - em.timestamp > em.ttl))
    (hmd : em.data = none)
    (hav : g.stor.avail = some true)
    (hs : lsGetItem g.stor.ls (g.stor.pfx ++ key) = some (.entry es))
    (hsf : ¬(now > es.timestamp + es.ttl)) (hsd : es.data = none)
    (hp : lookupKV g.dedup.pending key = none) :
    cachedFetchStart g c now key cfg false =
      ({ g with dedup := (dedupeCall g.dedup c key).1 }, .awaiting)
    ∧ (dedupeCall g.dedup c key).2 = true
    ∧ (dedupeCall g.dedup c key).1.invoked = g.dedup.invoked ++ [g.dedup.nextId] := by
  refine ⟨?_, ?_, ?_⟩
  · simp [cachedFetchStart, memGet, hm, hmf, hmd, scGet, scAvailCheck, hav, fullKey,
      hs, isExpiredS, hsf, hsd]
  · simp [dedupeCall, hp]
  · simp [dedupeCall, hp]

/-- Orchestrator state whose entries for `"k"` in both tiers hold `undefined`. -/
def gUndefEx : GState Nat Nat :=
  { mem := [("k".toList, ⟨none, 100, 50⟩)],
    stor := { scEmptyEx with
      ls := { items := [("crm_cache_k".toList, RawVal.entry ⟨none, 100, 50⟩)], sched := [] } },
    dedup := dEmptyEx, lastFetch := [] }

/-- Witness for C10: both tiers hold non-expired `undefined` entries, yet the
call goes to the network path and invokes the fetcher. -/
theorem undefined_never_served_witness :
    cachedFetchStart gUndefEx 0 120 ("k".toList) ⟨60, 300⟩ false =
      ({ gUndefEx with dedup := (dedupeCall gUndefEx.dedup 0 ("k".toList)).1 }, .awaiting)
    ∧ (dedupeCall gUndefEx.dedup 0 ("k".toList)).2 = true
    ∧ (dedupeCall gUndefEx.dedup 0 ("k".toList)).1.invoked =
        gUndefEx.dedup.invoked ++ [gUndefEx.dedup.nextId] :=
  undefined_never_served gUndefEx 0 120 ("k".toList) ⟨60, 300⟩ ⟨none, 100, 50⟩
    ⟨none, 100, 50⟩ rfl (by decide) rfl rfl (by decide) (by decide) rfl rfl

/-! ## Orchestrator claims C4 and C5 -/

/-- C4: when the fetcher's promise rejects, `cachedFetch` propagates the error
unchanged and performs no mutation: the resumed continuation leaves the whole
state untouched, the deduplicator registry is cleaned up, and any previously
cached non-expired entry for the key is still served from memory by a
subsequent call exactly as before the failed attempt. -/
theorem fetch_failure_preserves_cache {α ε : Type} (g : GState α ε) (c c2 : Nat)
    (now now2 now3 : Nat) (key : Str) (cfg : CacheConfig) (e : ε) (em : CacheEntry α)
    (v : α) (hpend : lookupKV g.dedup.pending key = none) :
    (∀ g' : GState α ε, cachedFetchResume g' now2 key cfg (.err e) = (g', .raised e))
    ∧ cachedFetchStart g c now key cfg true =
        ({ g with dedup := (dedupeCall g.dedup c key).1 }, .awaiting)
    ∧ lookupKV (startThenSettle g c key (.err e)).pending key = none
    ∧ (lookupKV g.mem key = some em → ¬(now3 - em.timestamp > em.ttl) → em.data = some v →
        cachedFetchStart { g with dedup := startThenSettle g c key (.err e) } c2 now3 key
            cfg false =
          ({ g with dedup := startThenSettle g c key (.err e) },
            .done (some v) .memory em.timestamp)) := by
  refine ⟨fun g' => rfl, by simp [cachedFetchStart], ?_, ?_⟩
  · simp [startThenSettle, dedupeCall, hpend, settleFetch, lookupKV_setKV_self,
      lookupKV_eraseKV]
  · intro hm hfresh hd
    simp [cachedFetchStart, memGet, hm, hfresh, hd]

/-- Witness for C4: a failed forced refresh on a state with a valid memory
entry leaves everything intact and the entry still retrievable. -/
theorem fetch_failure_preserves_cache_witness :
    (∀ g' : GState Nat Nat,
      cachedFetchResume g' 130 ("k".toList) ⟨60, 300⟩ (.err 99) = (g', .raised 99))
    ∧ cachedFetchStart gMemHitEx 0 120 ("k".toList) ⟨60, 300⟩ true =
        ({ gMemHitEx with dedup := (dedupeCall gMemHitEx.dedup 0 ("k".toList)).1 },
          .awaiting)
    ∧ lookupKV (startThenSettle gMemHitEx 0 ("k".toList) (.err 99)).pending
        ("k".toList) = none
    ∧ cachedFetchStart
        { gMemHitEx with dedup := startThenSettle gMemHitEx 0 ("k".toList) (.err 99) }
        1 140 ("k".toList) ⟨60, 300⟩ false =
        ({ gMemHitEx with dedup := startThenSettle gMemHitEx 0 ("k".toList) (.err 99) },
          .done (some 7) .memory 100) := by
  obtain ⟨h1, h2, h3, h4⟩ := fetch_failure_preserves_cache gMemHitEx 0 1 120 130 140
    ("k".toList) ⟨60, 300⟩ 99 ⟨some 7, 100, 50⟩ 7 rfl
  exact ⟨h1, h2, h3, h4 rfl (by decide) rfl⟩

/-- C5: with a valid non-expired cached entry present, a forced refresh still
skips both tier lookups and invokes the fetcher, overwriting both tiers with
the settled result; yet a forced call issued while a fetch for the key is
already in flight joins that fetch through the deduplicator (no new
invocation) and receives its outcome. -/
theorem force_refresh_bypass {α ε : Type} (g : GState α ε) (c : Nat) (now now2 : Nat)
    (key : Str) (cfg : CacheConfig) (em : CacheEntry α) (v w : α) (f : Nat)
    (o : FetchOutcome α ε) :
    (lookupKV g.mem key = some em → ¬(now - em.timestamp > em.ttl) → em.data = some v →
     lookupKV g.dedup.pending key = none → g.stor.avail = some true →
     g.stor.ls.sched = [] →
      cachedFetchStart g c now key cfg true =
        ({ g with dedup := (dedupeCall g.dedup c key).1 }, .awaiting)
      ∧ (dedupeCall g.dedup c key).2 = true
      ∧ (dedupeCall g.dedup c key).1.invoked = g.dedup.invoked ++ [g.dedup.nextId]
      ∧ cachedFetchResume { g with dedup := startThenSettle g c key (.ok (some w)) }
            now2 key cfg (.ok (some w)) =
          ({ g with
              mem := setKV g.mem key ⟨some w, now2, cfg.memoryTtl⟩,
              stor := { g.stor with ls := { g.stor.ls with
                items := setKV g.stor.ls.items (g.stor.pfx ++ key)
                  (.entry ⟨some w, now2, cfg.storageTtl⟩) } },
              dedup := startThenSettle g c key (.ok (some w)),
              lastFetch := setKV g.lastFetch key now2 },
            .value (some w) .network now2))
    ∧ (lookupKV g.dedup.pending key = some f → lookupKV g.dedup.fKey f = some key →
      cachedFetchStart g c now key cfg true =
        ({ g with dedup := { g.dedup with attached := setKV g.dedup.attached c f } },
          .awaiting)
      ∧ callerOutcome
          (settleFetch { g.dedup with attached := setKV g.dedup.attached c f } f o) c
          = some o) := by
  constructor
  · intro hm hfresh hd hpend hav hsched
    refine ⟨by simp [cachedFetchStart], by simp [dedupeCall, hpend],
      by simp [dedupeCall, hpend], ?_⟩
    simp [cachedFetchResume, memSet, scSet, scAvailCheck, hav, fullKey,
      lsSetItem, lsNextOutcome, hsched]
  · intro hp2 hfk
    constructor
    · simp [cachedFetchStart, dedupeCall, hp2]
    · simp [settleFetch, hfk, callerOutcome, lookupKV_setKV_self]

/-- Orchestrator state with an in-flight fetch for `"k"` (fetch id `0`). -/
def gPendEx : GState Nat Nat :=
  { mem := [], stor := scEmptyEx,
    dedup := { pending := [("k".toList, 0)], fKey := [(0, "k".toList)], nextId := 1,
               invoked := [0], attached := [], settled := [] },
    lastFetch := [] }

/-- Witness for C5: a forced call on a state with a valid memory entry still
fetches and overwrites both tiers; a forced call against an in-flight fetch
joins it and sees its outcome. -/
theorem force_refresh_bypass_witness :
    (cachedFetchStart gMemHitEx 0 120 ("k".toList) ⟨60, 300⟩ true =
        ({ gMemHitEx with dedup := (dedupeCall gMemHitEx.dedup 0 ("k".toList)).1 },
          .awaiting)
      ∧ (dedupeCall gMemHitEx.dedup 0 ("k".toList)).2 = true
      ∧ (dedupeCall gMemHitEx.dedup 0 ("k".toList)).1.invoked =
          gMemHitEx.dedup.invoked ++ [gMemHitEx.dedup.nextId]
      ∧ cachedFetchResume
            { gMemHitEx with
              dedup := startThenSettle gMemHitEx 0 ("k".toList) (.ok (some 9)) }
            130 ("k".toList) ⟨60, 300⟩ (.ok (some 9)) =
          ({ gMemHitEx with
              mem := setKV gMemHitEx.mem ("k".toList) ⟨some 9, 130, 60⟩,
              stor := { gMemHitEx.stor with ls := { gMemHitEx.stor.ls with
                items := setKV gMemHitEx.stor.ls.items (gMemHitEx.stor.pfx ++ "k".toList)
                  (.entry ⟨some 9, 130, 300⟩) } },
              dedup := startThenSettle gMemHitEx 0 ("k".toList) (.ok (some 9)),
              lastFetch := setKV gMemHitEx.lastFetch ("k".toList) 130 },
            .value (some 9) .network 130))
    ∧ (cachedFetchStart gPendEx 0 120 ("k".toList) ⟨60, 300⟩ true =
        ({ gPendEx with dedup := { gPendEx.dedup with
            attached := setKV gPendEx.dedup.attached 0 0 } }, .awaiting)
      ∧ callerOutcome
          (settleFetch { gPendEx.dedup with
            attached := setKV gPendEx.dedup.attached 0 0 } 0 (.ok (some 5))) 0
          = some (.ok (some 5))) := by
  constructor
  · exact (force_refresh_bypass gMemHitEx 0 120 130 ("k".toList) ⟨60, 300⟩
      ⟨some 7, 100, 50⟩ 7 9 0 (.ok (some 5))).1 rfl (by decide) rfl rfl rfl rfl
  · exact (force_refresh_bypass gPendEx 0 120 130 ("k".toList) ⟨60, 300⟩
      ⟨some 7, 100, 50⟩ 7 9 0 (.ok (some 5))).2 rfl rfl

/-! ## Quota-cascade lemmas (claim C3) -/

theorem lookupKV_eq_none_forall {κ β : Type} [DecidableEq κ] {l : List (κ × β)} {k : κ}
    (h : lookupKV l k = none) : ∀ kv ∈ l, kv.1 ≠ k := by
  induction l with
  | nil => intro kv hkv; cases hkv
  | cons hd t ih =>
    intro kv hkv
    obtain ⟨k', v'⟩ := hd
    by_cases hk : k' = k
    · simp [lookupKV, hk] at h
    · rcases List.mem_cons.mp hkv with he | hm
      · rw [he]; exact hk
      · exact ih (by simpa [lookupKV, hk] using h) kv hm

theorem lookupKV_of_mem_nodup {κ β : Type} [DecidableEq κ] {l : List (κ × β)}
    (hnd : (l.map Prod.fst).Nodup) {kv : κ × β} (hm : kv ∈ l) :
    lookupKV l kv.1 = some kv.2 := by
  induction l with
  | nil => cases hm
  | cons hd t ih =>
    obtain ⟨k', v'⟩ := hd
    simp only [List.map_cons, List.nodup_cons] at hnd
    rcases List.mem_cons.mp hm with he | hmt
    · rw [he]; simp [lookupKV]
    · have hk : ¬(k' = kv.1) := by
        intro he
        exact hnd.1 (he ▸ List.mem_map_of_mem Prod.fst hmt)
      simp [lookupKV, hk, ih hnd.2 hmt]

theorem nodup_keys_filter {κ β : Type} (p : κ × β → Bool) {l : List (κ × β)}
    (h : (l.map Prod.fst).Nodup) : ((l.filter p).map Prod.fst).Nodup :=
  List.Nodup.sublist (List.Sublist.map Prod.fst (List.filter_sublist l)) h

/-- For a stored pair, membership of its key in the prefixed-key enumeration
is exactly the prefix test. -/
theorem decide_mem_scKeys {α : Type} (st : SC α) {kv : Str × RawVal α}
    (hkv : kv ∈ st.ls.items) :
    decide (kv.1 ∈ scKeys st) = st.pfx.isPrefixOf kv.1 := by
  by_cases hp : st.pfx.isPrefixOf kv.1
  · have hm : kv.1 ∈ scKeys st := by
      simp only [scKeys, List.mem_filter]
      exact ⟨List.mem_map_of_mem _ hkv, hp⟩
    simp [hm, hp]
  · have hm : kv.1 ∉ scKeys st := by
      simp only [scKeys, List.mem_filter]
      exact fun hc => hp hc.2
    simp [hm, hp]

/-- The per-key sweep over a duplicate-free key list removes exactly the
listed keys whose stored value is expired or unparsable, emitting one removal
event per removed key in key-list order. -/
theorem sweepKeys_spec {α : Type} (now : Nat) (ks : List Str) :
    ∀ ls : LS α, ks.Nodup → (ls.items.map Prod.fst).Nodup →
      (sweepKeys ls now ks).1 =
        { ls with items :=
            ls.items.filter (fun kv => !(decide (kv.1 ∈ ks) && badRaw now kv.2)) }
      ∧ (sweepKeys ls now ks).2 = ks.filterMap (fun k =>
          match lookupKV ls.items k with
          | some rv => if badRaw now rv then some (Ev.rmv k) else none
          | none => none) := by
  induction ks with
  | nil =>
    intro ls _ _
    exact ⟨by simp [sweepKeys], by simp [sweepKeys]⟩
  | cons k ks ih =>
    intro ls hks hnd
    have hkn : k ∉ ks := (List.nodup_cons.mp hks).1
    have hks' : ks.Nodup := (List.nodup_cons.mp hks).2
    cases hlk : lookupKV ls.items k with
    | none =>
      have hne := lookupKV_eq_none_forall hlk
      obtain ⟨i1, i2⟩ := ih ls hks' hnd
      have hstep : sweepKeys ls now (k :: ks) = sweepKeys ls now ks := by
        simp [sweepKeys, lsGetItem, hlk]
      have hfeq : ls.items.filter (fun kv => !(decide (kv.1 ∈ ks) && badRaw now kv.2))
          = ls.items.filter (fun kv => !(decide (kv.1 ∈ k :: ks) && badRaw now kv.2)) :=
        List.filter_congr (fun kv hkv => by
          have hne' := hne kv hkv
          simp [List.mem_cons, hne'])
      constructor
      · rw [hstep, i1, hfeq]
      · rw [hstep, i2]
        simp [List.filterMap_cons, hlk]
    | some rv =>
      cases hbad : badRaw now rv with
      | false =>
        obtain ⟨i1, i2⟩ := ih ls hks' hnd
        have hstep : sweepKeys ls now (k :: ks) = sweepKeys ls now ks := by
          simp [sweepKeys, lsGetItem, hlk, hbad]
        have hfeq : ls.items.filter (fun kv => !(decide (kv.1 ∈ ks) && badRaw now kv.2))
            = ls.items.filter (fun kv => !(decide (kv.1 ∈ k :: ks) && badRaw now kv.2)) :=
          List.filter_congr (fun kv hkv => by
            by_cases hk1 : kv.1 = k
            · have h2 : rv = kv.2 := by
                have hl := lookupKV_of_mem_nodup hnd hkv
                rw [hk1, hlk] at hl
                exact Option.some.inj hl
              simp [hk1, ← h2, hbad, List.mem_cons]
            · simp [hk1, List.mem_cons])
        constructor
        · rw [hstep, i1, hfeq]
        · rw [hstep, i2]
          simp [List.filterMap_cons, hlk, hbad]
      | true =>
        have hnd1 : (((ls.items.filter (fun kv => !(decide (kv.1 = k)))).map Prod.fst)).Nodup :=
          nodup_keys_filter _ hnd
        obtain ⟨i1, i2⟩ := ih ({ ls with items := eraseKV ls.items k } : LS α)
          hks' (by simpa [eraseKV_eq_filter] using hnd1)
        have hstep : sweepKeys ls now (k :: ks) =
            ((sweepKeys ({ ls with items := eraseKV ls.items k } : LS α) now ks).1,
              Ev.rmv k :: (sweepKeys ({ ls with items := eraseKV ls.items k } : LS α) now ks).2) := by
          simp [sweepKeys, lsGetItem, hlk, hbad, lsRemoveItem]
        constructor
        · rw [hstep]
          simp only []
          rw [i1]
          have : (eraseKV ls.items k).filter (fun kv => !(decide (kv.1 ∈ ks) && badRaw now kv.2))
              = ls.items.filter (fun kv => !(decide (kv.1 ∈ k :: ks) && badRaw now kv.2)) := by
            rw [eraseKV_eq_filter, List.filter_filter]
            exact List.filter_congr (fun kv hkv => by
              by_cases hk1 : kv.1 = k
              · have h2 : rv = kv.2 := by
                  have hl := lookupKV_of_mem_nodup hnd hkv
                  rw [hk1, hlk] at hl
                  exact Option.some.inj hl
                simp [hk1, ← h2, hbad, List.mem_cons]
              · simp [hk1, List.mem_cons])
          rw [this]
        · rw [hstep]
          simp only []
          rw [i2]
          have hcong : ks.filterMap (fun k' =>
              match lookupKV (eraseKV ls.items k) k' with
              | some rv' => if badRaw now rv' then some (Ev.rmv k') else none
              | none => none) = ks.filterMap (fun k' =>
              match lookupKV ls.items k' with
              | some rv' => if badRaw now rv' then some (Ev.rmv k') else none
              | none => none) :=
            List.filterMap_congr (fun k' hk' => by
              have hne : ¬(k' = k) := fun he => hkn (he ▸ hk')
              rw [lookupKV_eraseKV, if_neg hne])
          rw [hcong]
          simp [List.filterMap_cons, hlk, hbad]

/-- The removal events of the expired-entry sweep: one per stored prefixed key
whose value is expired or unparsable, in storage order. -/
def sweepEvsOf {α : Type} (items : List (Str × RawVal α)) (now : Nat) (pfx : Str) :
    List Ev :=
  (items.filter (fun kv => pfx.isPrefixOf kv.1 && badRaw now kv.2)).map
    (fun kv => Ev.rmv kv.1)

/-- The removal events of the post-sweep full clear: one per stored prefixed
key surviving the sweep, in storage order. -/
def clearEvsOf {α : Type} (items : List (Str × RawVal α)) (now : Nat) (pfx : Str) :
    List Ev :=
  ((items.filter (fun kv => !(pfx.isPrefixOf kv.1 && badRaw now kv.2))).filter
    (fun kv => pfx.isPrefixOf kv.1)).map (fun kv => Ev.rmv kv.1)

/-- The sweep's event trace, re-expressed in storage order. -/
theorem sweepTrace_at_keys {α : Type} (now : Nat) (pfx : Str) :
    ∀ items : List (Str × RawVal α), (items.map Prod.fst).Nodup →
      ((items.map Prod.fst).filter (fun k => pfx.isPrefixOf k)).filterMap (fun k =>
          match lookupKV items k with
          | some rv => if badRaw now rv then some (Ev.rmv k) else none
          | none => none)
        = sweepEvsOf items now pfx := by
  intro items
  induction items with
  | nil => intro _; simp [sweepEvsOf]
  | cons hd t ih =>
    intro hnd
    obtain ⟨k0, v0⟩ := hd
    simp only [List.map_cons, List.nodup_cons] at hnd
    have hk0nin : k0 ∉ t.map Prod.fst := hnd.1
    have hcong : ∀ ks' : List Str, (∀ k' ∈ ks', k' ∈ t.map Prod.fst) →
        ks'.filterMap (fun k =>
          match lookupKV ((k0, v0) :: t) k with
          | some rv => if badRaw now rv then some (Ev.rmv k) else none
          | none => none)
        = ks'.filterMap (fun k =>
          match lookupKV t k with
          | some rv => if badRaw now rv then some (Ev.rmv k) else none
          | none => none) := by
      intro ks' hsub
      exact List.filterMap_congr (fun k' hk' => by
        have hne : ¬(k0 = k') := fun he => hk0nin (he ▸ hsub k' hk')
        simp [lookupKV, hne])
    have hsubf : ∀ k' ∈ (t.map Prod.fst).filter (fun k => pfx.isPrefixOf k),
        k' ∈ t.map Prod.fst := fun k' hk' => (List.mem_filter.mp hk').1
    by_cases hp : pfx.isPrefixOf k0
    · rw [List.map_cons, List.filter_cons_of_pos (by simpa using hp),
        List.filterMap_cons]
      have hl0 : lookupKV ((k0, v0) :: t) k0 = some v0 := by simp [lookupKV]
      cases hbad : badRaw now v0 with
      | false =>
        simp only [hl0, hbad]
        rw [hcong _ hsubf, ih hnd.2]
        simp [sweepEvsOf, List.filter_cons, hp, hbad]
      | true =>
        simp only [hl0, hbad]
        rw [hcong _ hsubf, ih hnd.2]
        simp [sweepEvsOf, List.filter_cons, hp, hbad]
    · rw [List.map_cons, List.filter_cons_of_neg (by simpa using hp)]
      rw [hcong _ hsubf, ih hnd.2]
      simp [sweepEvsOf, List.filter_cons, hp]

/-- `StorageCache.clearExpired` removes exactly the prefixed entries that are
expired or unparsable, emitting their removal events in storage order. -/
theorem clearExpired_spec {α : Type} (st : SC α) (now : Nat)
    (hnd : (st.ls.items.map Prod.fst).Nodup) :
    clearExpired st now =
      ({ st with ls :=
          { st.ls with items :=
              st.ls.items.filter (fun kv => !(st.pfx.isPrefixOf kv.1 && badRaw now kv.2)) } },
        sweepEvsOf st.ls.items now st.pfx) := by
  have hksnd : (scKeys st).Nodup := List.Nodup.filter _ hnd
  obtain ⟨s1, s2⟩ := sweepKeys_spec now (scKeys st) st.ls hksnd hnd
  have hfeq : st.ls.items.filter (fun kv => !(decide (kv.1 ∈ scKeys st) && badRaw now kv.2))
      = st.ls.items.filter (fun kv => !(st.pfx.isPrefixOf kv.1 && badRaw now kv.2)) :=
    List.filter_congr (fun kv hkv => by rw [decide_mem_scKeys st hkv])
  have s2' : (sweepKeys st.ls now (scKeys st)).2 = sweepEvsOf st.ls.items now st.pfx := by
    rw [s2]
    exact sweepTrace_at_keys now st.pfx st.ls.items hnd
  have hpair : sweepKeys st.ls now (scKeys st) =
      ({ st.ls with items :=
          st.ls.items.filter (fun kv => !(st.pfx.isPrefixOf kv.1 && badRaw now kv.2)) },
        sweepEvsOf st.ls.items now st.pfx) := by
    rw [← hfeq]
    exact Prod.ext s1 s2'
  simp [clearExpired, hpair]

theorem isPrefixOf_append_self (p k : Str) : p.isPrefixOf (p ++ k) = true := by
  simp

/-- C3 (part 1 of the development): with the retry schedule `[quota, ok]`,
`StorageCache.set` sweeps the expired prefixed entries and the retried write
succeeds. -/
theorem quota_cascade_sweep_then_ok {α : Type} (st : SC α) (now : Nat) (key : Str)
    (v : Option α) (ttl : Nat) (hav : st.avail = some true)
    (hnd : (st.ls.items.map Prod.fst).Nodup)
    (hsched : st.ls.sched = [.quota, .ok]) :
    scSet st now key v ttl =
      ({ st with ls :=
          { items := setKV (st.ls.items.filter
              (fun kv => !(st.pfx.isPrefixOf kv.1 && badRaw now kv.2)))
              (st.pfx ++ key) (.entry ⟨v, now, ttl⟩),
            sched := [] } },
        [.setErr (st.pfx ++ key), .warn warnQuota1]
          ++ sweepEvsOf st.ls.items now st.pfx ++ [.setOk (st.pfx ++ key)]) := by
  have havail : scAvailCheck st = (true, st, []) := by simp [scAvailCheck, hav]
  have hset1 : lsSetItem st.ls (st.pfx ++ key) (.entry ⟨v, now, ttl⟩) =
      (.quota, { st.ls with sched := [.ok] }, [.setErr (st.pfx ++ key)]) := by
    simp [lsSetItem, lsNextOutcome, hsched]
  have hce := clearExpired_spec ({ st with ls := { st.ls with sched := [.ok] } } : SC α)
    now (by simpa using hnd)
  simp only at hce
  set X := st.ls.items.filter (fun kv => !(st.pfx.isPrefixOf kv.1 && badRaw now kv.2))
    with hX
  have hset2 : lsSetItem ({ items := X, sched := [.ok] } : LS α) (st.pfx ++ key)
      (.entry ⟨v, now, ttl⟩) =
      (.ok, ({ items := setKV X (st.pfx ++ key) (.entry ⟨v, now, ttl⟩), sched := [] } : LS α),
        [.setOk (st.pfx ++ key)]) := by
    simp [lsSetItem, lsNextOutcome]
  simp [scSet, havail, fullKey, hset1, handleQuotaExceeded, hce, hset2]

/-- C3 (part 2): with the schedule `[quota, quota, ok]`, the sweep is followed
by a failed retry, a full prefixed clear, and a final successful write. -/
theorem quota_cascade_clear_then_ok {α : Type} (st : SC α) (now : Nat) (key : Str)
    (v : Option α) (ttl : Nat) (hav : st.avail = some true)
    (hnd : (st.ls.items.map Prod.fst).Nodup)
    (hsched : st.ls.sched = [.quota, .quota, .ok]) :
    scSet st now key v ttl =
      ({ st with ls :=
          { items := st.ls.items.filter (fun kv => !(st.pfx.isPrefixOf kv.1))
              ++ [(st.pfx ++ key, .entry ⟨v, now, ttl⟩)],
            sched := [] } },
        [.setErr (st.pfx ++ key), .warn warnQuota1]
          ++ sweepEvsOf st.ls.items now st.pfx
          ++ [.setErr (st.pfx ++ key), .warn warnQuota2]
          ++ clearEvsOf st.ls.items now st.pfx
          ++ [.setOk (st.pfx ++ key)]) := by
  have havail : scAvailCheck st = (true, st, []) := by simp [scAvailCheck, hav]
  have hset1 : lsSetItem st.ls (st.pfx ++ key) (.entry ⟨v, now, ttl⟩) =
      (.quota, { st.ls with sched := [.quota, .ok] }, [.setErr (st.pfx ++ key)]) := by
    simp [lsSetItem, lsNextOutcome, hsched]
  have hce := clearExpired_spec
    ({ st with ls := { st.ls with sched := [.quota, .ok] } } : SC α) now (by simpa using hnd)
  simp only at hce
  set X := st.ls.items.filter (fun kv => !(st.pfx.isPrefixOf kv.1 && badRaw now kv.2))
    with hX
  have hset2 : lsSetItem ({ items := X, sched := [.quota, .ok] } : LS α) (st.pfx ++ key)
      (.entry ⟨v, now, ttl⟩) =
      (.quota, ({ items := X, sched := [.ok] } : LS α), [.setErr (st.pfx ++ key)]) := by
    simp [lsSetItem, lsNextOutcome]
  set Y := st.ls.items.filter (fun kv => !(st.pfx.isPrefixOf kv.1)) with hY
  have hXf : X.filter (fun kv => !(st.pfx.isPrefixOf kv.1)) = Y := by
    rw [hX, hY, List.filter_filter]
    exact List.filter_congr (fun kv _ => by
      cases hp : st.pfx.isPrefixOf kv.1 <;> simp [hp])
  have hCE : (scKeys ({ st with ls := ({ items := X, sched := [.ok] } : LS α) } : SC α)).map
      Ev.rmv = clearEvsOf st.ls.items now st.pfx := by
    simp only [scKeys, clearEvsOf, hX]
    simp [List.filter_map, List.map_map, Function.comp]
  have hcp : scClear ({ st with ls := ({ items := X, sched := [.ok] } : LS α) } : SC α) =
      ({ st with ls := ({ items := Y, sched := [.ok] } : LS α) },
        clearEvsOf st.ls.items now st.pfx) := by
    obtain ⟨hc1, hc2⟩ := scClear_spec
      ({ st with ls := ({ items := X, sched := [.ok] } : LS α) } : SC α) hav
    refine Prod.ext ?_ ?_
    · rw [hc1]
      simp [hXf]
    · rw [hc2, hCE]
  have hlk : lookupKV Y (st.pfx ++ key) = none := by
    rw [hY]
    simp [lookupKV_filter_not st.ls.items (fun k => st.pfx.isPrefixOf k),
      isPrefixOf_append_self]
  have hset3 : lsSetItem ({ items := Y, sched := [.ok] } : LS α) (st.pfx ++ key)
      (.entry ⟨v, now, ttl⟩) =
      (.ok, ({ items := Y ++ [(st.pfx ++ key, .entry ⟨v, now, ttl⟩)], sched := [] } : LS α),
        [.setOk (st.pfx ++ key)]) := by
    simp [lsSetItem, lsNextOutcome, setKV_of_lookup_none _ _ _ hlk]
  simp [scSet, havail, fullKey, hset1, handleQuotaExceeded, hce, hset2, hcp, hset3]

/-- C3 (part 3): with the schedule `[quota, quota, quota]`, even the final
write after the full clear fails; the tier gives up with only a warning. -/
theorem quota_cascade_exhausted {α : Type} (st : SC α) (now : Nat) (key : Str)
    (v : Option α) (ttl : Nat) (hav : st.avail = some true)
    (hnd : (st.ls.items.map Prod.fst).Nodup)
    (hsched : st.ls.sched = [.quota, .quota, .quota]) :
    scSet st now key v ttl =
      ({ st with ls :=
          { items := st.ls.items.filter (fun kv => !(st.pfx.isPrefixOf kv.1)),
            sched := [] } },
        [.setErr (st.pfx ++ key), .warn warnQuota1]
          ++ sweepEvsOf st.ls.items now st.pfx
          ++ [.setErr (st.pfx ++ key), .warn warnQuota2]
          ++ clearEvsOf st.ls.items now st.pfx
          ++ [.setErr (st.pfx ++ key), .warn warnQuota3]) := by
  have havail : scAvailCheck st = (true, st, []) := by simp [scAvailCheck, hav]
  have hset1 : lsSetItem st.ls (st.pfx ++ key) (.entry ⟨v, now, ttl⟩) =
      (.quota, { st.ls with sched := [.quota, .quota] }, [.setErr (st.pfx ++ key)]) := by
    simp [lsSetItem, lsNextOutcome, hsched]
  have hce := clearExpired_spec
    ({ st with ls := { st.ls with sched := [.quota, .quota] } } : SC α) now
    (by simpa using hnd)
  simp only at hce
  set X := st.ls.items.filter (fun kv => !(st.pfx.isPrefixOf kv.1 && badRaw now kv.2))
    with hX
  have hset2 : lsSetItem ({ items := X, sched := [.quota, .quota] } : LS α) (st.pfx ++ key)
      (.entry ⟨v, now, ttl⟩) =
      (.quota, ({ items := X, sched := [.quota] } : LS α), [.setErr (st.pfx ++ key)]) := by
    simp [lsSetItem, lsNextOutcome]
  set Y := st.ls.items.filter (fun kv => !(st.pfx.isPrefixOf kv.1)) with hY
  have hXf : X.filter (fun kv => !(st.pfx.isPrefixOf kv.1)) = Y := by
    rw [hX, hY, List.filter_filter]
    exact List.filter_congr (fun kv _ => by
      cases hp : st.pfx.isPrefixOf kv.1 <;> simp [hp])
  have hCE : (scKeys ({ st with ls := ({ items := X, sched := [.quota] } : LS α) } : SC α)).map
      Ev.rmv = clearEvsOf st.ls.items now st.pfx := by
    simp only [scKeys, clearEvsOf, hX]
    simp [List.filter_map, List.map_map, Function.comp]
  have hcp : scClear ({ st with ls := ({ items := X, sched := [.quota] } : LS α) } : SC α) =
      ({ st with ls := ({ items := Y, sched := [.quota] } : LS α) },
        clearEvsOf st.ls.items now st.pfx) := by
    obtain ⟨hc1, hc2⟩ := scClear_spec
      ({ st with ls := ({ items := X, sched := [.quota] } : LS α) } : SC α) hav
    refine Prod.ext ?_ ?_
    · rw [hc1]
      simp [hXf]
    · rw [hc2, hCE]
  have hset3 : lsSetItem ({ items := Y, sched := [.quota] } : LS α) (st.pfx ++ key)
      (.entry ⟨v, now, ttl⟩) =
      (.quota, ({ items := Y, sched := [] } : LS α), [.setErr (st.pfx ++ key)]) := by
    simp [lsSetItem, lsNextOutcome]
  simp [scSet, havail, fullKey, hset1, handleQuotaExceeded, hce, hset2, hcp, hset3]

/-- C3: a quota-exceeded write triggers exactly the recovery cascade, in
order: (1) sweep all prefixed keys, deleting expired (and unparsable) ones;
(2) retry the write once — if it succeeds the swept store plus the new entry
remains; (3) if the retry fails with quota-exceeded again, clear every
prefixed key and retry a final time; (4) if the final retry fails, give up
with only a logged warning.  The event traces state the order; the operation
is a total function into states and traces, so no exception ever escapes to
the caller of `set`. -/
theorem quota_cascade {α : Type} (st : SC α) (now : Nat) (key : Str) (v : Option α)
    (ttl : Nat) (hav : st.avail = some true)
    (hnd : (st.ls.items.map Prod.fst).Nodup) :
    (st.ls.sched = [.quota, .ok] →
      scSet st now key v ttl =
        ({ st with ls :=
            { items := setKV (st.ls.items.filter
                (fun kv => !(st.pfx.isPrefixOf kv.1 && badRaw now kv.2)))
                (st.pfx ++ key) (.entry ⟨v, now, ttl⟩),
              sched := [] } },
          [.setErr (st.pfx ++ key), .warn warnQuota1]
            ++ sweepEvsOf st.ls.items now st.pfx ++ [.setOk (st.pfx ++ key)]))
    ∧ (st.ls.sched = [.quota, .quota, .ok] →
      scSet st now key v ttl =
        ({ st with ls :=
            { items := st.ls.items.filter (fun kv => !(st.pfx.isPrefixOf kv.1))
                ++ [(st.pfx ++ key, .entry ⟨v, now, ttl⟩)],
              sched := [] } },
          [.setErr (st.pfx ++ key), .warn warnQuota1]
            ++ sweepEvsOf st.ls.items now st.pfx
            ++ [.setErr (st.pfx ++ key), .warn warnQuota2]
            ++ clearEvsOf st.ls.items now st.pfx
            ++ [.setOk (st.pfx ++ key)]))
    ∧ (st.ls.sched = [.quota, .quota, .quota] →
      scSet st now key v ttl =
        ({ st with ls :=
            { items := st.ls.items.filter (fun kv => !(st.pfx.isPrefixOf kv.1)),
              sched := [] } },
          [.setErr (st.pfx ++ key), .warn warnQuota1]
            ++ sweepEvsOf st.ls.items now st.pfx
            ++ [.setErr (st.pfx ++ key), .warn warnQuota2]
            ++ clearEvsOf st.ls.items now st.pfx
            ++ [.setErr (st.pfx ++ key), .warn warnQuota3])) :=
  ⟨fun h => quota_cascade_sweep_then_ok st now key v ttl hav hnd h,
   fun h => quota_cascade_clear_then_ok st now key v ttl hav hnd h,
   fun h => quota_cascade_exhausted st now key v ttl hav hnd h⟩

/-- A persistent-tier state under quota pressure: a fresh prefixed entry, an
expired prefixed entry, an unparsable prefixed entry, and a foreign entry;
the next two writes throw quota errors and the third succeeds. -/
def stQuotaEx : SC Nat :=
  { pfx := "crm_cache_".toList, avail := some true,
    ls := { items :=
              [("crm_cache_live".toList, RawVal.entry ⟨some 1, 100, 1000⟩),
               ("crm_cache_old".toList, RawVal.entry ⟨some 2, 0, 50⟩),
               ("crm_cache_bad".toList, RawVal.corrupt "zz".toList),
               ("other".toList, RawVal.corrupt "yy".toList)],
            sched := [.quota, .quota, .ok] } }

/-- Witness for C3: on the example state the full cascade runs — sweep,
failed retry, full clear, successful final write. -/
theorem quota_cascade_witness :
    scSet stQuotaEx 200 ("k".toList) (some 5) 60 =
      ({ stQuotaEx with ls :=
          { items := stQuotaEx.ls.items.filter
              (fun kv => !(stQuotaEx.pfx.isPrefixOf kv.1))
              ++ [(stQuotaEx.pfx ++ "k".toList, .entry ⟨some 5, 200, 60⟩)],
            sched := [] } },
        [.setErr (stQuotaEx.pfx ++ "k".toList), .warn warnQuota1]
          ++ sweepEvsOf stQuotaEx.ls.items 200 stQuotaEx.pfx
          ++ [.setErr (stQuotaEx.pfx ++ "k".toList), .warn warnQuota2]
          ++ clearEvsOf stQuotaEx.ls.items 200 stQuotaEx.pfx
          ++ [.setOk (stQuotaEx.pfx ++ "k".toList)]) :=
  (quota_cascade stQuotaEx 200 ("k".toList) (some 5) 60 rfl (by decide)).2.1 rfl

/-! ## Pattern-matching lemmas (claim C8) -/

theorem globMatch_star_all (s : Str) : globMatch ['*'] s = true := by
  induction s with
  | nil => simp [globMatch]
  | cons x s ih => simp [globMatch, ih]

/-- For a star-free literal followed by a single trailing `*`, the constructed
regex matches exactly the strings with that literal as a prefix. -/
theorem globMatch_append_star {lit : Str} (h : '*' ∉ lit) :
    ∀ s : Str, globMatch (lit ++ ['*']) s = lit.isPrefixOf s := by
  induction lit with
  | nil => intro s; simp [globMatch_star_all]
  | cons c lit ih =>
    intro s
    have hc : ¬(c = '*') := fun he => h (he ▸ List.mem_cons_self c lit)
    have h' : '*' ∉ lit := fun hm => h (List.mem_cons_of_mem _ hm)
    cases s with
    | nil => simp [globMatch, hc, List.isPrefixOf]
    | cons x s' =>
      by_cases hcx : c = x
      · subst hcx
        simp [globMatch, hc, ih h', List.isPrefixOf]
      · simp [globMatch, hc, hcx, List.isPrefixOf, beq_iff_eq]

/-- A star-free pattern's regex matches only the pattern itself. -/
theorem globMatch_no_star {lit : Str} (h : '*' ∉ lit) :
    ∀ s : Str, globMatch lit s = decide (lit = s) := by
  induction lit with
  | nil => intro s; cases s <;> simp [globMatch]
  | cons c lit ih =>
    intro s
    have hc : ¬(c = '*') := fun he => h (he ▸ List.mem_cons_self c lit)
    have h' : '*' ∉ lit := fun hm => h (List.mem_cons_of_mem _ hm)
    cases s with
    | nil => simp [globMatch, hc]
    | cons x s' =>
      by_cases hcx : c = x
      · subst hcx
        simp [globMatch, hc, ih h']
      · simp [globMatch, hc, hcx]

theorem dropWhile_no_star : ∀ l : Str, (∀ x ∈ l, ¬(x = '*')) →
    l.dropWhile (fun c => c = '*') = l
  | [], _ => rfl
  | x :: l, h => by
    simp [List.dropWhile_cons, h x (List.mem_cons_self x l)]

theorem stripStars_append_star {base : Str} (h : '*' ∉ base) :
    stripStars (base ++ ['*']) = base := by
  have hrev : ∀ x ∈ base.reverse, ¬(x = '*') :=
    fun x hx he => h (List.mem_reverse.mp (he ▸ hx))
  simp only [stripStars, List.reverse_append, List.reverse_cons, List.reverse_nil,
    List.nil_append, List.singleton_append, List.dropWhile_cons]
  simp [dropWhile_no_star base.reverse hrev]

theorem stripStars_no_star {q : Str} (h : '*' ∉ q) : stripStars q = q := by
  have hrev : ∀ x ∈ q.reverse, ¬(x = '*') :=
    fun x hx he => h (List.mem_reverse.mp (he ▸ hx))
  simp [stripStars, dropWhile_no_star q.reverse hrev]

theorem hasStar_append_star (base : Str) : hasStar (base ++ ['*']) = true := by
  simp [hasStar]

theorem hasStar_eq_false {q : Str} (h : '*' ∉ q) : hasStar q = false := by
  simp [hasStar, h]

theorem isPrefixOf_of_append_left {p b k : Str} (h : (p ++ b).isPrefixOf k) :
    p.isPrefixOf k := by
  rw [List.isPrefixOf_iff_prefix] at h ⊢
  exact (List.prefix_append p b).trans h

theorem foldl_eraseKV {κ β : Type} [DecidableEq κ] (ks : List κ) :
    ∀ l : List (κ × β), ks.foldl (fun s k => eraseKV s k) l
      = l.filter (fun kv => !(decide (kv.1 ∈ ks))) := by
  induction ks with
  | nil => intro l; simp
  | cons k ks ih =>
    intro l
    rw [List.foldl_cons, ih (eraseKV l k), eraseKV_eq_filter, List.filter_filter]
    exact List.filter_congr (fun kv _ => by
      by_cases h1 : kv.1 = k <;> by_cases h2 : kv.1 ∈ ks <;> simp [h1, h2])

theorem decide_mem_keys_filter {κ β : Type} [DecidableEq κ] (q : κ → Bool)
    {l : List (κ × β)} {kv : κ × β} (hkv : kv ∈ l) :
    decide (kv.1 ∈ (l.map (·.1)).filter q) = q kv.1 := by
  cases hq : q kv.1 with
  | true =>
    have hm : kv.1 ∈ (l.map (·.1)).filter q :=
      List.mem_filter.mpr ⟨List.mem_map_of_mem _ hkv, hq⟩
    simp [hm]
  | false =>
    have hm : kv.1 ∉ (l.map (·.1)).filter q := fun hc => by
      have := (List.mem_filter.mp hc).2
      rw [hq] at this
      cases this
    simp [hm]

/-- `MemoryCache.invalidatePattern` with a wildcard pattern removes exactly
the keys starting with the stripped pattern. -/
theorem memInvalidatePattern_star {α : Type} (st : MemState α) (p : Str)
    (hp : hasStar p = true) :
    memInvalidatePattern st p
      = st.filter (fun kv => !((stripStars p).isPrefixOf kv.1)) := by
  simp only [memInvalidatePattern, hp, Bool.not_true, Bool.false_eq_true, if_false]
  rw [foldl_eraseKV]
  exact List.filter_congr (fun kv hkv => by
    rw [decide_mem_keys_filter (fun k => (stripStars p).isPrefixOf k) hkv])

/-- `StorageCache.invalidatePattern` with a star-free base and one trailing
wildcard removes exactly the stored keys extending the prefixed base. -/
theorem scInvalidatePattern_trailing_star {α : Type} (st : SC α) (base : Str)
    (hav : st.avail = some true) (hb : '*' ∉ st.pfx ++ base) :
    (scInvalidatePattern st (base ++ ['*'])).1 =
      { st with ls :=
          { st.ls with items :=
              st.ls.items.filter (fun kv => !((st.pfx ++ base).isPrefixOf kv.1)) } } := by
  have havail : scAvailCheck st = (true, st, []) := by simp [scAvailCheck, hav]
  have hfp : fullKey st (base ++ ['*']) = (st.pfx ++ base) ++ ['*'] := by
    simp [fullKey]
  have hg : ∀ k : Str, globMatch (fullKey st (base ++ ['*'])) k
      = (st.pfx ++ base).isPrefixOf k := by
    intro k
    rw [hfp, globMatch_append_star hb]
  obtain ⟨r1, _⟩ := removeKeys_spec
    ((scKeys st).filter (fun k => globMatch (fullKey st (base ++ ['*'])) k)) st.ls
  simp only [scInvalidatePattern, havail, Bool.not_true, Bool.false_eq_true, if_false]
  rw [r1]
  congr 2
  refine List.filter_congr (fun kv hkv => ?_)
  by_cases hpb : (st.pfx ++ base).isPrefixOf kv.1
  · have hpfx : st.pfx.isPrefixOf kv.1 = true := isPrefixOf_of_append_left hpb
    have hks : kv.1 ∈ scKeys st := by
      simp only [scKeys, List.mem_filter]
      exact ⟨List.mem_map_of_mem _ hkv, hpfx⟩
    have hm : kv.1 ∈ (scKeys st).filter
        (fun k => globMatch (fullKey st (base ++ ['*'])) k) :=
      List.mem_filter.mpr ⟨hks, by rw [hg]; exact hpb⟩
    simp [hm, hpb]
  · have hm : kv.1 ∉ (scKeys st).filter
        (fun k => globMatch (fullKey st (base ++ ['*'])) k) := fun hc => by
      have := (List.mem_filter.mp hc).2
      rw [hg] at this
      exact hpb this
    simp [hm, hpb]

/-- `StorageCache.invalidatePattern` with a star-free pattern removes exactly
the prefixed pattern key. -/
theorem scInvalidatePattern_exact {α : Type} (st : SC α) (q : Str)
    (hav : st.avail = some true) (hq : '*' ∉ st.pfx ++ q) :
    (scInvalidatePattern st q).1 =
      { st with ls :=
          { st.ls with items := eraseKV st.ls.items (st.pfx ++ q) } } := by
  have havail : scAvailCheck st = (true, st, []) := by simp [scAvailCheck, hav]
  have hg : ∀ k : Str, globMatch (fullKey st q) k = decide (st.pfx ++ q = k) := by
    intro k
    have hfp : fullKey st q = st.pfx ++ q := rfl
    rw [hfp, globMatch_no_star hq]
  obtain ⟨r1, _⟩ := removeKeys_spec
    ((scKeys st).filter (fun k => globMatch (fullKey st q) k)) st.ls
  simp only [scInvalidatePattern, havail, Bool.not_true, Bool.false_eq_true, if_false]
  rw [r1, eraseKV_eq_filter]
  congr 2
  refine List.filter_congr (fun kv hkv => ?_)
  by_cases hpq : kv.1 = st.pfx ++ q
  · have hks : kv.1 ∈ scKeys st := by
      simp only [scKeys, List.mem_filter]
      refine ⟨List.mem_map_of_mem _ hkv, ?_⟩
      rw [hpq]
      exact isPrefixOf_append_self st.pfx q
    have hm : kv.1 ∈ (scKeys st).filter (fun k => globMatch (fullKey st q) k) :=
      List.mem_filter.mpr ⟨hks, by rw [hg]; simp [hpq]⟩
    have h1 : decide (kv.1 ∈ (scKeys st).filter (fun k => globMatch (fullKey st q) k))
        = true := by simp [hm]
    have h2 : decide (kv.1 = st.pfx ++ q) = true := by simp [hpq]
    rw [h1, h2]
  · have hm : kv.1 ∉ (scKeys st).filter (fun k => globMatch (fullKey st q) k) := by
      intro hc
      have hgm := (List.mem_filter.mp hc).2
      rw [hg] at hgm
      have heq : st.pfx ++ q = kv.1 := by simpa using hgm
      exact hpq heq.symm
    have h1 : decide (kv.1 ∈ (scKeys st).filter (fun k => globMatch (fullKey st q) k))
        = false := by simp [hm]
    have h2 : decide (kv.1 = st.pfx ++ q) = false := by simp [hpq]
    rw [h1, h2]

/-- Orchestrator state with an empty cache but a recorded last-fetch timestamp
for key `"ab"`. -/
def gTsEx : GState Nat Nat :=
  { mem := [], stor := scEmptyEx, dedup := dEmptyEx, lastFetch := [("ab".toList, 5)] }

/-- Counterexample to C8 as stated: the no-wildcard pattern `"a"` is claimed
to remove only the exact key, but `invalidateCachePattern` purges the
last-fetch timestamp of the different key `"ab"` (prefix match). -/
theorem pattern_invalidation_counterexample :
    ¬(("ab".toList : Str) = "a".toList)
    ∧ lookupKV gTsEx.lastFetch ("ab".toList) = some 5
    ∧ (invalidateCachePatternG gTsEx ("a".toList)).lastFetch = [] := by
  refine ⟨by decide, by decide, by decide⟩

/-- C8 (amended): invalidating `base ++ "*"` through the orchestrator removes
exactly the keys starting with `base` from both tiers and from the timestamp
map; a no-wildcard pattern removes only the exact key from both tiers but
purges the last-fetch timestamp of every key having the pattern as a prefix;
and the pattern `"*"` purges all timestamps. -/
theorem pattern_invalidation_amended {α ε : Type} (g : GState α ε) (base q k : Str)
    (hav : g.stor.avail = some true) (hb : '*' ∉ base) (hbne : base ≠ [])
    (hbp : '*' ∉ g.stor.pfx) (hq : '*' ∉ q) :
    (lookupKV (invalidateCachePatternG g (base ++ ['*'])).mem k
      = if base.isPrefixOf k then none else lookupKV g.mem k)
    ∧ ((invalidateCachePatternG g (base ++ ['*'])).stor.ls.items
      = g.stor.ls.items.filter (fun kv => !((g.stor.pfx ++ base).isPrefixOf kv.1)))
    ∧ (lookupKV (invalidateCachePatternG g (base ++ ['*'])).lastFetch k
      = if base.isPrefixOf k then none else lookupKV g.lastFetch k)
    ∧ (lookupKV (invalidateCachePatternG g q).mem k
      = if k = q then none else lookupKV g.mem k)
    ∧ ((invalidateCachePatternG g q).stor.ls.items
      = eraseKV g.stor.ls.items (g.stor.pfx ++ q))
    ∧ (lookupKV (invalidateCachePatternG g q).lastFetch k
      = if q.isPrefixOf k then none else lookupKV g.lastFetch k)
    ∧ (invalidateCachePatternG g (['*'] : Str)).lastFetch = [] := by
  have hb' : '*' ∉ g.stor.pfx ++ base := by
    intro hm
    rcases List.mem_append.mp hm with hmm | hmm
    · exact hbp hmm
    · exact hb hmm
  have hq' : '*' ∉ g.stor.pfx ++ q := by
    intro hm
    rcases List.mem_append.mp hm with hmm | hmm
    · exact hbp hmm
    · exact hq hmm
  have hne : ¬(base ++ ['*'] = (['*'] : Str)) := by
    intro he
    have hl := congrArg List.length he
    simp at hl
    exact hbne hl
  have hqn : ¬(q = (['*'] : Str)) := by
    intro he
    exact hq (he ▸ List.mem_singleton.mpr rfl)
  refine ⟨?_, ?_, ?_, ?_, ?_, ?_, ?_⟩
  · simp only [invalidateCachePatternG]
    rw [memInvalidatePattern_star _ _ (hasStar_append_star base),
      stripStars_append_star hb]
    exact lookupKV_filter_not g.mem (fun x => base.isPrefixOf x) k
  · simp only [invalidateCachePatternG]
    rw [scInvalidatePattern_trailing_star g.stor base hav hb']
  · simp only [invalidateCachePatternG, if_neg hne]
    rw [stripStars_append_star hb]
    exact lookupKV_filter_not g.lastFetch (fun x => base.isPrefixOf x) k
  · simp only [invalidateCachePatternG]
    have hexact : memInvalidatePattern g.mem q = eraseKV g.mem q := by
      simp [memInvalidatePattern, hasStar_eq_false hq]
    rw [hexact]
    exact lookupKV_eraseKV g.mem q k
  · simp only [invalidateCachePatternG]
    rw [scInvalidatePattern_exact g.stor q hav hq']
  · simp only [invalidateCachePatternG, if_neg hqn]
    rw [stripStars_no_star hq]
    exact lookupKV_filter_not g.lastFetch (fun x => q.isPrefixOf x) k
  · simp [invalidateCachePatternG]

/-- Orchestrator state with contact and user keys cached in both tiers and
timestamped. -/
def gPatEx : GState Nat Nat :=
  { mem := [("contact:1".toList, ⟨some 1, 0, 100⟩), ("user:1".toList, ⟨some 2, 0, 100⟩)],
    stor := { pfx := "crm_cache_".toList, avail := some true,
              ls := { items :=
                        [("crm_cache_contact:1".toList, RawVal.entry ⟨some 1, 0, 100⟩)],
                      sched := [] } },
    dedup := dEmptyEx,
    lastFetch := [("contact:1".toList, 7), ("user:1".toList, 8)] }

/-- Witness for the amended C8 at a concrete state. -/
theorem pattern_invalidation_amended_witness :
    (lookupKV (invalidateCachePatternG gPatEx ("contact:".toList ++ ['*'])).mem
        ("contact:1".toList)
      = if ("contact:".toList : Str).isPrefixOf ("contact:1".toList) then none
        else lookupKV gPatEx.mem ("contact:1".toList))
    ∧ ((invalidateCachePatternG gPatEx ("contact:".toList ++ ['*'])).stor.ls.items
      = gPatEx.stor.ls.items.filter
          (fun kv => !((gPatEx.stor.pfx ++ "contact:".toList).isPrefixOf kv.1)))
    ∧ (lookupKV (invalidateCachePatternG gPatEx ("contact:".toList ++ ['*'])).lastFetch
        ("contact:1".toList)
      = if ("contact:".toList : Str).isPrefixOf ("contact:1".toList) then none
        else lookupKV gPatEx.lastFetch ("contact:1".toList))
    ∧ (lookupKV (invalidateCachePatternG gPatEx ("x".toList)).mem ("contact:1".toList)
      = if ("contact:1".toList : Str) = "x".toList then none
        else lookupKV gPatEx.mem ("contact:1".toList))
    ∧ ((invalidateCachePatternG gPatEx ("x".toList)).stor.ls.items
      = eraseKV gPatEx.stor.ls.items (gPatEx.stor.pfx ++ "x".toList))
    ∧ (lookupKV (invalidateCachePatternG gPatEx ("x".toList)).lastFetch
        ("contact:1".toList)
      = if ("x".toList : Str).isPrefixOf ("contact:1".toList) then none
        else lookupKV gPatEx.lastFetch ("contact:1".toList))
    ∧ (invalidateCachePatternG gPatEx (['*'] : Str)).lastFetch = [] :=
  pattern_invalidation_amended gPatEx ("contact:".toList) ("x".toList)
    ("contact:1".toList) rfl (by decide) (by decide) (by decide) (by decide)

end ScoutCache
